import Mathlib

/-!
Verification of the file sampling and encoding pipeline
(`src/lib/sampling-utils.ts`, `src/lib/file-filter-utils.ts`,
`src/lib/encoding-utils.ts`, `src/lib/zip-utils.ts`) as a shallow
embedding.  JavaScript strings are modelled as Lean `String`
(`List Char`), JavaScript numbers holding integer counts as `Nat`
(percentages, which may be compared with 100, as `Int`), optional
object fields as `Option`, and `Map`/`Set`/`Record` objects as
insertion-ordered association lists.
-/

namespace Sampler

/-- JS `String.prototype.split` with a one-character separator, on the
underlying character list.  `split` always returns at least one chunk:
splitting the empty string yields `[[]]`. -/
def splitChars (c : Char) : List Char → List (List Char)
  | [] => [[]]
  | x :: xs =>
    let r := splitChars c xs
    if x = c then [] :: r
    else
      match r with
      | [] => [[x]]
      | y :: ys => (x :: y) :: ys

/-- JS `s.split(sep)` for a one-character separator `sep`, as strings. -/
def splitOnCharStr (c : Char) (s : String) : List String :=
  (splitChars c s.data).map (fun l => String.mk l)

/-- JS `Array.prototype.join(sep)`. -/
def jsJoin (sep : String) : List String → String
  | [] => ""
  | [x] => x
  | x :: xs => x ++ sep ++ jsJoin sep xs

/-- JS `String.prototype.lastIndexOf` for a single character: the index
of the rightmost occurrence, or `none`. -/
def jsLastIndexOfChar (c : Char) (l : List Char) : Option Nat :=
  match (l.reverse).findIdx? (fun x => x = c) with
  | none => none
  | some j => some (l.length - 1 - j)

/-- JS `||` on a possibly-missing string option: the empty string is
falsy, so both `undefined` and `''` fall back to the default. -/
def jsOrString (o : Option String) (d : String) : String :=
  match o with
  | none => d
  | some s => if s = "" then d else s

/-- `getFileExtension` (file-filter-utils.ts): the substring from the
last `.` to the end, lowercased; `''` when no dot occurs. -/
def getFileExtension (filename : String) : String :=
  match jsLastIndexOfChar '.' filename.data with
  | none => ""
  | some i => String.mk ((filename.data.drop i).map Char.toLower)

/-- `FileEntry` (src/types/file-types.ts). -/
structure FileEntry where
  path : String
  name : String := ""
  content : String := ""
  originalContent : Option String := none
  isDirectory : Bool := false
  lineCount : Option Nat := none
deriving Repr, DecidableEq

/-- `BINARY_EXTENSIONS` (file-filter-utils.ts): binary file extensions
to exclude; JS `Set<string>` embedded as a list queried with
`contains`. -/
def BINARY_EXTENSIONS : List String := [
  ".png", ".jpg", ".jpeg", ".gif", ".bmp", ".svg", ".ico", ".webp",
  ".pdf", ".doc", ".docx", ".xls", ".xlsx", ".ppt", ".pptx",
  ".zip", ".tar", ".gz", ".7z", ".rar", ".bz2", ".xz",
  ".mp3", ".mp4", ".avi", ".mov", ".wav", ".flac", ".ogg", ".webm", ".mkv",
  ".class", ".jar", ".war", ".ear", ".jmod",
  ".exe", ".dll", ".pdb", ".nupkg", ".msi", ".vsix",
  ".o", ".obj", ".so", ".a", ".lib", ".dylib", ".exp", ".out",
  ".pyc", ".pyo", ".pyd", ".whl", ".egg",
  ".framework", ".app", ".ipa", ".dsym", ".xcarchive",
  ".test",
  ".rlib", ".rmeta",
  ".node", ".wasm",
  ".deb", ".rpm", ".apk", ".aab", ".dmg", ".pkg", ".iso",
  ".db", ".sqlite", ".sqlite3",
  ".ttf", ".otf", ".woff", ".woff2", ".eot",
  ".bin", ".dat", ".pak"]

/-- `EXCLUDED_DIR_PATTERNS` (file-filter-utils.ts). -/
def EXCLUDED_DIR_PATTERNS : List String := [
  "node_modules", "__pycache__", ".git", "venv", ".venv", "env",
  "dist", "build", ".idea", ".vscode", "target", ".pytest_cache",
  ".mypy_cache", ".tox", "htmlcov", ".coverage", "coverage_html_report",
  ".svn", ".hg", ".eggs", ".hypothesis", ".ruff_cache"]

/-- `EXCLUDED_FILES` (file-filter-utils.ts): exact junk filenames. -/
def EXCLUDED_FILES : List String :=
  [".DS_Store", "Thumbs.db", "desktop.ini", ".localized"]

/-- `CODE_FILE_EXTENSIONS` (file-filter-utils.ts), in source order; the
JS `Set` deduplicates repeated entries, which `contains` also ignores. -/
def CODE_FILE_EXTENSIONS : List String := [
  ".go",
  ".rs",
  ".kt", ".kts",
  ".lua",
  ".m", ".mat", ".mlx",
  ".mm",
  ".dart",
  ".asm", ".s", ".S",
  ".rb", ".rake", ".gemspec",
  ".swift",
  ".r", ".R", ".rmd", ".Rmd",
  ".cpp", ".cc", ".cxx", ".c++", ".hpp", ".hh", ".hxx", ".h++",
  ".c", ".h",
  ".ts", ".tsx", ".mts", ".cts",
  ".js", ".jsx", ".mjs", ".cjs",
  ".py", ".pyw", ".pyi",
  ".java",
  ".cs",
  ".php",
  ".scala", ".sc",
  ".sh", ".bash", ".zsh", ".fish",
  ".sql",
  ".pl", ".pm",
  ".hs", ".lhs",
  ".ex", ".exs",
  ".erl", ".hrl",
  ".clj", ".cljs", ".cljc", ".edn",
  ".fs", ".fsx", ".fsi",
  ".ml", ".mli",
  ".groovy", ".gvy", ".gy", ".gsh",
  ".zig",
  ".nim", ".nims",
  ".v",
  ".jl",
  ".f", ".for", ".f90", ".f95", ".f03", ".f08",
  ".cob", ".cbl",
  ".adb", ".ads",
  ".pas", ".pp",
  ".pro", ".pl",
  ".lisp", ".lsp", ".cl",
  ".scm", ".ss",
  ".rkt",
  ".d",
  ".cr"]

/-- `isCodeFile` (file-filter-utils.ts). -/
def isCodeFile (filename : String) : Bool :=
  CODE_FILE_EXTENSIONS.contains (getFileExtension filename)

/-- `shouldExcludeDir` (file-filter-utils.ts). -/
def shouldExcludeDir (dirName : String) : Bool :=
  EXCLUDED_DIR_PATTERNS.contains dirName

/-- `shouldExcludePath` (file-filter-utils.ts): some `/`-segment other
than the last one matches the directory blocklist. -/
def shouldExcludePath (path : String) : Bool :=
  let pathParts := splitOnCharStr '/' path
  pathParts.dropLast.any shouldExcludeDir

/-- JS `String.prototype.startsWith`. -/
def jsStartsWith (s pre : String) : Bool :=
  pre.data.isPrefixOf s.data

/-- `shouldExcludeFile` (file-filter-utils.ts).  The tested filename is
`filepath.split('/').pop() || filepath`: the last `/`-segment, except
that when that segment is the (falsy) empty string the whole path is
used instead. -/
def shouldExcludeFile (filepath : String) : Bool :=
  let seg := ((splitOnCharStr '/' filepath).getLastD "")
  let filename := if seg = "" then filepath else seg
  if EXCLUDED_FILES.contains filename then true
  else if jsStartsWith filename "._" then true
  else BINARY_EXTENSIONS.contains (getFileExtension filename)

/-- `filterCodeFiles` (file-filter-utils.ts): keep a file only when
neither the directory blocklist nor the file blocklist rejects it. -/
def filterCodeFiles (files : List FileEntry) : List FileEntry :=
  files.filter (fun file =>
    if shouldExcludePath file.path then false
    else !shouldExcludeFile file.path)

/-- Modelled from the spec: `detectLanguage` lives in
src/lib/language-utils.ts, which is not among the provided sources.
Per spec section 4.1 it looks up the lowercased last-dot extension of
the filename in a static extension-to-language table and returns the
sentinel label for unmapped extensions.  A representative table is
embedded here. -/
def LANGUAGE_TABLE : List (String × String) := [
  (".go", "Go"), (".rs", "Rust"), (".kt", "Kotlin"),
  (".py", "Python"), (".ts", "TypeScript"), (".js", "JavaScript"),
  (".c", "C"), (".cpp", "C++"), (".java", "Java"), (".rb", "Ruby")]

/-- Modelled from the spec: the Classifier's language lookup (spec
section 4.1), with unmapped extensions yielding `"Unknown"`. -/
def detectLanguage (path : String) : String :=
  (LANGUAGE_TABLE.lookup (getFileExtension path)).getD "Unknown"

/-- `SamplingOptions` (sampling-utils.ts); every field is optional and
defaulted inside `sampleCodeFiles` by destructuring. -/
structure SamplingOptions where
  maxFiles : Option Nat := none
  maxPerLanguage : Option Nat := none
  prioritizeDiversity : Option Bool := none
  priorityLanguages : Option (List String) := none
deriving Repr

/-- `SamplingResult.stats` (sampling-utils.ts); the JS
`Record<string, number>` is an insertion-ordered association list. -/
structure SamplingStats where
  totalFiles : Nat
  sampledFiles : Nat
  languageDistribution : List (String × Nat)
deriving Repr

/-- `SamplingResult` (sampling-utils.ts). -/
structure SamplingResult where
  samples : List FileEntry
  remaining : List FileEntry
  stats : SamplingStats
deriving Repr

/-- First-occurrence deduplication, parameterized by the keys already
seen: the traversal underlying a JS `Map` or `Record` built by
repeated upsert. -/
def dedupFirstAux {α : Type} [DecidableEq α] : List α → List α → List α
  | [], _ => []
  | x :: xs, seen =>
    if seen.contains x then dedupFirstAux xs seen
    else x :: dedupFirstAux xs (x :: seen)

/-- First-occurrence deduplication: the key sequence of a JS `Map`
or `Record` built by repeated upsert. -/
def dedupFirst {α : Type} [DecidableEq α] (l : List α) : List α :=
  dedupFirstAux l []

/-- One JS `record[k] = (record[k] || 0) + v` upsert on an
insertion-ordered association list. -/
def bumpRecord (m : List (String × Nat)) (k : String) (v : Nat) :
    List (String × Nat) :=
  if m.any (fun p => p.1 = k) then
    m.map (fun p => if p.1 = k then (p.1, p.2 + v) else p)
  else m ++ [(k, v)]

/-- `calculateLanguageDistribution` (sampling-utils.ts). -/
def calculateLanguageDistribution (files : List FileEntry) :
    List (String × Nat) :=
  (files.filter (fun f => !f.isDirectory)).foldl
    (fun acc f => bumpRecord acc (detectLanguage f.path) 1) []

/-- `groupFilesByLanguage` (sampling-utils.ts): the insertion-ordered
`Map<string, FileEntry[]>` built by pushing each non-directory code
file onto its language's array, embedded as the list of
(language, files-of-that-language-in-input-order) pairs keyed by first
occurrence. -/
def groupFilesByLanguage (files : List FileEntry) :
    List (String × List FileEntry) :=
  let eligible := files.filter (fun f => !f.isDirectory && isCodeFile f.path)
  let keys := dedupFirst (eligible.map (fun f => detectLanguage f.path))
  keys.map (fun lang =>
    (lang, eligible.filter (fun f => detectLanguage f.path == lang)))

/-- `languageGroups.get(lang) || []` (sampling-utils.ts); a stored
array is never falsy, so the fallback fires exactly on missing keys. -/
def lookupGroup (groups : List (String × List FileEntry)) (lang : String) :
    List FileEntry :=
  (groups.lookup lang).getD []

/-- The mutable `samples` array together with the `sampledPaths` set of
`sampleCodeFiles` (sampling-utils.ts). -/
structure SampleState where
  samples : List FileEntry
  sampledPaths : List String
deriving Repr

/-- The inner sampling loop of `sampleCodeFiles` (sampling-utils.ts,
both passes): walk the first `toSample` files of a language group (the
caller passes `langFiles.take toSample`), stopping once
`samples.length < maxFiles` fails, pushing each file whose path is not
yet in `sampledPaths`. -/
def sampleLoop (maxFiles : Nat) : List FileEntry → SampleState → SampleState
  | [], st => st
  | f :: fs, st =>
    if st.samples.length < maxFiles then
      if st.sampledPaths.contains f.path then sampleLoop maxFiles fs st
      else sampleLoop maxFiles fs
        ⟨st.samples ++ [f], f.path :: st.sampledPaths⟩
    else st

/-- The simple-truncation loop of `sampleCodeFiles` (sampling-utils.ts,
`prioritizeDiversity` false): take files in order until `maxFiles`,
recording paths without checking them. -/
def truncLoop (maxFiles : Nat) : List FileEntry → SampleState → SampleState
  | [], st => st
  | f :: fs, st =>
    if st.samples.length ≥ maxFiles then st
    else truncLoop maxFiles fs ⟨st.samples ++ [f], f.path :: st.sampledPaths⟩

/-- `Math.ceil(a / b)` on nonnegative integer operands, for a positive
divisor (the only way the source reaches the division, since the
grouped file list is nonempty whenever the diversity branch runs). -/
def jsCeilDiv (a b : Nat) : Nat := (a + b - 1) / b

/-- `sampleCodeFiles` (sampling-utils.ts). -/
def sampleCodeFiles (files : List FileEntry)
    (options : SamplingOptions := {}) : SamplingResult :=
  let maxFiles := options.maxFiles.getD 1000
  let maxPerLanguage := options.maxPerLanguage.getD 100
  let prioritizeDiversity := options.prioritizeDiversity.getD true
  let priorityLanguages := options.priorityLanguages.getD []
  let codeFiles := files.filter (fun f => !f.isDirectory && isCodeFile f.path)
  if codeFiles.length ≤ maxFiles then
    { samples := codeFiles
      remaining := []
      stats :=
        { totalFiles := codeFiles.length
          sampledFiles := codeFiles.length
          languageDistribution := calculateLanguageDistribution codeFiles } }
  else
    let languageGroups := groupFilesByLanguage codeFiles
    let st0 : SampleState := ⟨[], []⟩
    let st2 :=
      if prioritizeDiversity then
        let stP := priorityLanguages.foldl (fun st lang =>
          let langFiles := lookupGroup languageGroups lang
          let toSample := min langFiles.length
            (min maxPerLanguage (jsCeilDiv maxFiles languageGroups.length))
          sampleLoop maxFiles (langFiles.take toSample) st) st0
        let remainingSlots := maxFiles - stP.samples.length
        let remainingLanguages := (languageGroups.map (fun g => g.1)).filter
          (fun lang => !priorityLanguages.contains lang)
        if remainingLanguages.length > 0 ∧ remainingSlots > 0 then
          let slotsPerLanguage :=
            jsCeilDiv remainingSlots remainingLanguages.length
          remainingLanguages.foldl (fun st lang =>
            let langFiles := lookupGroup languageGroups lang
            let toSample := min langFiles.length
              (min maxPerLanguage slotsPerLanguage)
            sampleLoop maxFiles (langFiles.take toSample) st) stP
        else stP
      else truncLoop maxFiles codeFiles st0
    let remaining := codeFiles.filter (fun f => !st2.sampledPaths.contains f.path)
    { samples := st2.samples
      remaining := remaining
      stats :=
        { totalFiles := codeFiles.length
          sampledFiles := st2.samples.length
          languageDistribution := calculateLanguageDistribution st2.samples } }

/-- Hexadecimal digit characters, as produced by the lowercase
`\u00XX` escapes of `JSON.stringify`. -/
def hexDigit : Nat → Char
  | 0 => '0' | 1 => '1' | 2 => '2' | 3 => '3'
  | 4 => '4' | 5 => '5' | 6 => '6' | 7 => '7'
  | 8 => '8' | 9 => '9' | 10 => 'a' | 11 => 'b'
  | 12 => 'c' | 13 => 'd' | 14 => 'e' | 15 => 'f'
  | _ => '0'

/-- The ECMAScript `QuoteJSONString` escape of one character, as used
by `JSON.stringify` on string values: `"` and `\` get a backslash
escape, the named control characters get their two-character escapes,
all other control characters below U+0020 get `\u00XX`, and everything
else is emitted verbatim. -/
def jsonEscapeChar (c : Char) : List Char :=
  if c = '"' then ['\\', '"']
  else if c = '\\' then ['\\', '\\']
  else if c = '\x08' then ['\\', 'b']
  else if c = '\t' then ['\\', 't']
  else if c = '\n' then ['\\', 'n']
  else if c = '\x0c' then ['\\', 'f']
  else if c = '\r' then ['\\', 'r']
  else if c.toNat < 32 then
    ['\\', 'u', '0', '0', hexDigit (c.toNat / 16), hexDigit (c.toNat % 16)]
  else [c]

/-- `JSON.stringify` applied to one string value: the escaped
characters wrapped in double quotes. -/
def jsonQuote (s : String) : String :=
  String.mk ('"' :: s.data.foldr (fun c acc => jsonEscapeChar c ++ acc) ['"'])

/-- `JsonlRecord` (src/types/encoding-types.ts): the
`{repo, filename, text}` wire record. -/
structure JsonlRecord where
  repo : String
  filename : String
  text : String
deriving Repr, DecidableEq

/-- `createJsonlRecord` (encoding-utils.ts). -/
def createJsonlRecord (file : FileEntry) (repoName : String) : JsonlRecord :=
  { repo := repoName, filename := file.path, text := file.content }

/-- `JSON.stringify` applied to a `JsonlRecord` object literal: its
three own properties serialized in insertion order
`repo, filename, text`. -/
def jsonStringifyRecord (r : JsonlRecord) : String :=
  "\x7b\"repo\":" ++ jsonQuote r.repo ++
  ",\"filename\":" ++ jsonQuote r.filename ++
  ",\"text\":" ++ jsonQuote r.text ++ "\x7d"

/-- `EncodingOptions` (src/types/encoding-types.ts), restricted to the
field `encodeFilesWithStats` reads. -/
structure EncodingOptions where
  repoName : Option String := none
deriving Repr

/-- `ExclusionLogEntry` (src/types/encoding-types.ts). -/
structure ExclusionLogEntry where
  path : String
  reason : String
deriving Repr, DecidableEq

/-- `EncodingStats` (src/types/encoding-types.ts). -/
structure EncodingStats where
  totalFiles : Nat
  includedFiles : Nat
  excludedFiles : Nat
  totalCharacters : Nat
  languageBreakdown : List (String × Nat)
deriving Repr

/-- `EncodingResult` (src/types/encoding-types.ts). -/
structure EncodingResult where
  jsonlContent : String
  stats : EncodingStats
  excludedFiles : List String
  exclusionLog : List ExclusionLogEntry
deriving Repr

/-- `encodeFilesWithStats` (encoding-utils.ts). -/
def encodeFilesWithStats (files : List FileEntry) (allFiles : List FileEntry)
    (options : EncodingOptions := {}) : EncodingResult :=
  let repoName := jsOrString options.repoName "repository"
  let includableFiles := files.filter (fun f => !f.isDirectory)
  let allNonDirFiles := allFiles.filter (fun f => !f.isDirectory)
  let lines := includableFiles.map
    (fun file => jsonStringifyRecord (createJsonlRecord file repoName))
  let languageBreakdown := includableFiles.foldl
    (fun acc file => bumpRecord acc (detectLanguage file.path)
      file.content.length) []
  let totalCharacters := includableFiles.foldl
    (fun acc file => acc + file.content.length) 0
  let includedPaths := includableFiles.map (fun f => f.path)
  let excluded := allNonDirFiles.filter
    (fun file => !includedPaths.contains file.path)
  let exclusionLog := excluded.map (fun file =>
    { path := file.path
      reason :=
        if shouldExcludePath file.path then
          "Excluded by directory pattern (node_modules, .git, etc.)"
        else if shouldExcludeFile file.path then
          "Binary file (image, archive, executable, etc.)"
        else "Unknown" : ExclusionLogEntry })
  { jsonlContent := jsJoin "\n" lines
    stats :=
      { totalFiles := allNonDirFiles.length
        includedFiles := includableFiles.length
        excludedFiles := excluded.length
        totalCharacters := totalCharacters
        languageBreakdown := languageBreakdown }
    excludedFiles := excluded.map (fun f => f.path)
    exclusionLog := exclusionLog }

/-- `LanguageFileStats` (src/types/file-types.ts); `percentage` is an
integer because `Math.round` always yields one here. -/
structure LanguageFileStats where
  language : String
  lineCount : Nat
  charCount : Nat
  fileCount : Nat
  percentage : Int
deriving Repr, DecidableEq

/-- `RepositoryStats` (src/types/file-types.ts).  The `uploadedAt`
ISO-8601 timestamp is taken from the wall clock at computation time and
is therefore not part of the functional model. -/
structure RepositoryStats where
  totalLines : Nat
  totalChars : Nat
  totalFiles : Nat
  languages : List LanguageFileStats
deriving Repr

/-- `Math.round((lineCount / totalLines) * 100)` with the floating
division idealized as exact rational arithmetic; `Math.round` rounds
half-up, which is Mathlib's `round` on `ℚ`. -/
def jsPercentage (lineCount totalLines : Nat) : Int :=
  if totalLines > 0 then round (((lineCount : ℚ) / totalLines) * 100) else 0

/-- Stable insertion of a language-stats row into a list sorted by
descending `lineCount`: the row goes before the first entry it
(weakly) beats, so rows with equal counts keep their original order,
matching the stable JS `Array.prototype.sort`. -/
def insertByLines (a : LanguageFileStats) :
    List LanguageFileStats → List LanguageFileStats
  | [] => [a]
  | b :: bs =>
    if b.lineCount ≤ a.lineCount then a :: b :: bs
    else b :: insertByLines a bs

/-- The stable descending-by-`lineCount` sort performed by
`languages.sort((a, b) => b.lineCount - a.lineCount)`. -/
def sortByLinesDesc (l : List LanguageFileStats) : List LanguageFileStats :=
  l.foldr insertByLines []

/-- `calculateRepositoryStats` (zip-utils.ts, embedded in
encoding-utils' source file): per-language accumulation over all
non-directory files, percentages from line counts, and a stable sort
by descending line count (JS comparator `b.lineCount - a.lineCount`). -/
def calculateRepositoryStats (files : List FileEntry) : RepositoryStats :=
  let nonDir := files.filter (fun f => !f.isDirectory)
  let totalLines := (nonDir.map (fun f => f.lineCount.getD 0)).sum
  let totalChars := (nonDir.map (fun f => f.content.length)).sum
  let totalFiles := nonDir.length
  let keys := dedupFirst (nonDir.map (fun f => detectLanguage f.path))
  let languages := keys.map (fun lang =>
    let group := nonDir.filter (fun f => detectLanguage f.path == lang)
    let langLines := (group.map (fun f => f.lineCount.getD 0)).sum
    { language := lang
      lineCount := langLines
      charCount := (group.map (fun f => f.content.length)).sum
      fileCount := group.length
      percentage := jsPercentage langLines totalLines : LanguageFileStats })
  { totalLines := totalLines
    totalChars := totalChars
    totalFiles := totalFiles
    languages := sortByLinesDesc languages }

/-! ### Helper lemmas about splitting and joining -/

theorem splitChars_ne_nil (c : Char) (l : List Char) : splitChars c l ≠ [] := by
  cases l with
  | nil => simp [splitChars]
  | cons x xs =>
    simp only [splitChars]
    split
    · simp
    · cases h : splitChars c xs <;> simp

theorem splitChars_no_sep {c : Char} {xs : List Char} (h : c ∉ xs) :
    splitChars c xs = [xs] := by
  induction xs with
  | nil => simp [splitChars]
  | cons x xs ih =>
    simp only [List.mem_cons, not_or] at h
    simp only [splitChars, ih h.2]
    rw [if_neg (fun hx => h.1 hx.symm)]

theorem splitChars_append_sep {c : Char} {xs rest : List Char} (h : c ∉ xs) :
    splitChars c (xs ++ c :: rest) = xs :: splitChars c rest := by
  induction xs with
  | nil => simp [splitChars]
  | cons x xs ih =>
    simp only [List.mem_cons, not_or] at h
    simp only [List.cons_append, splitChars, List.append_eq, ih h.2]
    rw [if_neg (fun hx => h.1 hx.symm)]

theorem string_mk_data (s : String) : String.mk s.data = s := rfl

/-- Splitting a `'\n'`-join of newline-free lines recovers the lines. -/
theorem splitOnCharStr_jsJoin {c : Char} {sep : String} (hsep : sep.data = [c])
    (lines : List String) (h1 : lines ≠ [])
    (h2 : ∀ l ∈ lines, c ∉ l.data) :
    splitOnCharStr c (jsJoin sep lines) = lines := by
  induction lines with
  | nil => exact absurd rfl h1
  | cons l ls ih =>
    cases ls with
    | nil =>
      have hl : c ∉ l.data := h2 l (by simp)
      simp only [jsJoin, splitOnCharStr, splitChars_no_sep hl, List.map_cons,
        List.map_nil, string_mk_data]
    | cons l' ls' =>
      have hl : c ∉ l.data := h2 l (by simp)
      have hrest : splitOnCharStr c (jsJoin sep (l' :: ls')) = l' :: ls' :=
        ih (by simp) (fun x hx => h2 x (List.mem_cons_of_mem _ hx))
      have hstep : jsJoin sep (l :: l' :: ls') =
          l ++ sep ++ jsJoin sep (l' :: ls') := rfl
      rw [hstep]
      show ((splitChars c ((l ++ sep ++ jsJoin sep (l' :: ls')).data)).map
        (fun x => String.mk x)) = _
      rw [String.data_append, String.data_append, hsep, List.append_assoc,
        List.singleton_append, splitChars_append_sep hl, List.map_cons,
        string_mk_data]
      rw [show ((splitChars c (jsJoin sep (l' :: ls')).data).map
        (fun x => String.mk x)) = splitOnCharStr c (jsJoin sep (l' :: ls'))
        from rfl, hrest]

/-! ### Helper lemmas: serialized records contain no newline -/

theorem hexDigit_ne_newline (n : Nat) : hexDigit n ≠ '\n' := by
  unfold hexDigit
  split <;> decide

theorem newline_not_mem_jsonEscapeChar (ch : Char) :
    '\n' ∉ jsonEscapeChar ch := by
  unfold jsonEscapeChar
  split_ifs with h1 h2 h3 h4 h5 h6 h7 h8
  · decide
  · decide
  · decide
  · decide
  · decide
  · decide
  · decide
  · intro hmem
    simp only [List.mem_cons, List.not_mem_nil, or_false] at hmem
    rcases hmem with h | h | h | h | h | h
    · exact absurd h (by decide)
    · exact absurd h (by decide)
    · exact absurd h (by decide)
    · exact absurd h (by decide)
    · exact hexDigit_ne_newline _ h.symm
    · exact hexDigit_ne_newline _ h.symm
  · intro hmem
    simp only [List.mem_cons, List.not_mem_nil, or_false] at hmem
    exact h5 hmem.symm

theorem newline_not_mem_escape_foldr (l : List Char) :
    '\n' ∉ l.foldr (fun c acc => jsonEscapeChar c ++ acc) ['"'] := by
  induction l with
  | nil => decide
  | cons c cs ih =>
    simp only [List.foldr_cons, List.mem_append, not_or]
    exact ⟨newline_not_mem_jsonEscapeChar c, ih⟩

theorem newline_not_mem_jsonQuote (s : String) :
    '\n' ∉ (jsonQuote s).data := by
  show '\n' ∉ ('"' :: s.data.foldr (fun c acc => jsonEscapeChar c ++ acc) ['"'])
  intro hmem
  rcases List.mem_cons.mp hmem with h | h
  · exact absurd h (by decide)
  · exact newline_not_mem_escape_foldr _ h

theorem newline_not_mem_record (r : JsonlRecord) :
    '\n' ∉ (jsonStringifyRecord r).data := by
  unfold jsonStringifyRecord
  simp only [String.data_append, List.mem_append, not_or]
  refine ⟨⟨⟨⟨⟨⟨by decide, newline_not_mem_jsonQuote _⟩, by decide⟩,
    newline_not_mem_jsonQuote _⟩, by decide⟩, newline_not_mem_jsonQuote _⟩,
    by decide⟩

/-! ### Helper lemmas about `encodeFilesWithStats` -/

theorem encode_jsonlContent (files allFiles : List FileEntry)
    (opts : EncodingOptions) :
    (encodeFilesWithStats files allFiles opts).jsonlContent =
      jsJoin "\n" ((files.filter (fun f => !f.isDirectory)).map
        (fun f => jsonStringifyRecord
          (createJsonlRecord f (jsOrString opts.repoName "repository")))) := rfl

theorem encode_split_lines (files allFiles : List FileEntry)
    (opts : EncodingOptions)
    (h : 1 ≤ (files.filter (fun f => !f.isDirectory)).length) :
    splitOnCharStr '\n' (encodeFilesWithStats files allFiles opts).jsonlContent
      = (files.filter (fun f => !f.isDirectory)).map
        (fun f => jsonStringifyRecord
          (createJsonlRecord f (jsOrString opts.repoName "repository"))) := by
  rw [encode_jsonlContent]
  refine splitOnCharStr_jsJoin rfl _ ?_ ?_
  · intro hnil
    rw [← List.length_eq_zero] at hnil
    rw [List.length_map] at hnil
    omega
  · intro l hl
    rcases List.mem_map.mp hl with ⟨f, _, rfl⟩
    exact newline_not_mem_record _

/-! ### Claims C1, C6, C10 (encoder wire format) -/

/-- Claim C1 as amended: for every call `encodeFilesWithStats(files,
allFiles, {repoName})` and every index `i` below the number of
non-directory selected files, the `i`-th `'\n'`-separated line of
`jsonlContent` is the JSON serialization of the object with keys in
the order `repo, filename, text`, where `filename` and `text` carry
the path and unmodified content of the `i`-th non-directory selected
file, and `repo` is `repoName` except that an empty `repoName` falls
back to `"repository"` (the source applies `options.repoName ||
'repository'`). -/
theorem claim_C1_amended (files allFiles : List FileEntry) (rn : String)
    (i : Nat)
    (h : i < (files.filter (fun f => !f.isDirectory)).length) :
    (splitOnCharStr '\n' (encodeFilesWithStats files allFiles
        { repoName := some rn }).jsonlContent)[i]? =
      some ("\x7b\"repo\":" ++
        jsonQuote (if rn = "" then "repository" else rn) ++
        ",\"filename\":" ++
        jsonQuote (((files.filter (fun f => !f.isDirectory)).get ⟨i, h⟩).path)
        ++ ",\"text\":" ++
        jsonQuote (((files.filter (fun f => !f.isDirectory)).get
          ⟨i, h⟩).content) ++ "\x7d") := by
  rw [encode_split_lines files allFiles _ (by omega)]
  rw [List.getElem?_map]
  rw [List.getElem?_eq_getElem h]
  rfl

/-- Witness for C1 at a concrete call. -/
theorem claim_C1_amended_witness :
    0 < (([({ path := "a.py", content := "hi" } : FileEntry)]).filter
      (fun f => !f.isDirectory)).length ∧
    (splitOnCharStr '\n' (encodeFilesWithStats
        [({ path := "a.py", content := "hi" } : FileEntry)] []
        { repoName := some "r" }).jsonlContent)[0]? =
      some "\x7b\"repo\":\"r\",\"filename\":\"a.py\",\"text\":\"hi\"\x7d" :=
  ⟨by decide,
    (claim_C1_amended [{ path := "a.py", content := "hi" }] [] "r" 0
      (by decide)).trans (by decide)⟩

/-- Counterexample to C1 as stated: with `repoName := ""` the emitted
record's `repo` field is `"repository"`, not the passed `repoName`. -/
theorem claim_C1_counterexample :
    (splitOnCharStr '\n' (encodeFilesWithStats
        [({ path := "a.py", content := "hi" } : FileEntry)] []
        { repoName := some "" }).jsonlContent)[0]? =
      some "\x7b\"repo\":\"repository\",\"filename\":\"a.py\",\"text\":\"hi\"\x7d"
    ∧ (splitOnCharStr '\n' (encodeFilesWithStats
        [({ path := "a.py", content := "hi" } : FileEntry)] []
        { repoName := some "" }).jsonlContent)[0]? ≠
      some "\x7b\"repo\":\"\",\"filename\":\"a.py\",\"text\":\"hi\"\x7d" := by
  constructor
  · decide
  · decide

/-- Claim C6 as amended: encoding `N ≥ 1` selected non-directory files
yields a `jsonlContent` whose `'\n'`-split has exactly `N` elements.
(For `N = 0` the split of the empty string has one element, not
zero.) -/
theorem claim_C6_amended (files allFiles : List FileEntry)
    (opts : EncodingOptions)
    (h : 1 ≤ (files.filter (fun f => !f.isDirectory)).length) :
    (splitOnCharStr '\n'
        (encodeFilesWithStats files allFiles opts).jsonlContent).length =
      (files.filter (fun f => !f.isDirectory)).length := by
  rw [encode_split_lines files allFiles opts h, List.length_map]

/-- Witness for C6 at a concrete call with two selected files. -/
theorem claim_C6_amended_witness :
    1 ≤ (([({ path := "a.py", content := "x" } : FileEntry),
          { path := "b.ts", content := "y\nz" }]).filter
            (fun f => !f.isDirectory)).length ∧
    (splitOnCharStr '\n' (encodeFilesWithStats
        [({ path := "a.py", content := "x" } : FileEntry),
         { path := "b.ts", content := "y\nz" }] [] {}).jsonlContent).length
      = 2 :=
  ⟨by decide,
    (claim_C6_amended [{ path := "a.py", content := "x" },
      { path := "b.ts", content := "y\nz" }] [] {} (by decide)).trans
      (by decide)⟩

/-- Counterexample to C6 as stated: encoding `N = 0` files gives
`jsonlContent = ""`, and splitting the empty string on `'\n'` yields
one element (the empty string), not zero. -/
theorem claim_C6_counterexample :
    (([] : List FileEntry).filter (fun f => !f.isDirectory)).length = 0 ∧
    (splitOnCharStr '\n'
      (encodeFilesWithStats [] [] {}).jsonlContent).length = 1 := by
  constructor
  · decide
  · decide

/-- Claim C10: the encoder never re-applies the exclusion policy to
its selected files; every non-directory selected file contributes its
verbatim record line to `jsonlContent`, with no hypothesis about
`shouldExcludePath` or `shouldExcludeFile`. -/
theorem claim_C10 (files allFiles : List FileEntry) (opts : EncodingOptions)
    (f : FileEntry) (hf : f ∈ files) (hd : f.isDirectory = false) :
    ("\x7b\"repo\":" ++ jsonQuote (jsOrString opts.repoName "repository") ++
      ",\"filename\":" ++ jsonQuote f.path ++
      ",\"text\":" ++ jsonQuote f.content ++ "\x7d") ∈
      splitOnCharStr '\n'
        (encodeFilesWithStats files allFiles opts).jsonlContent := by
  have hmem : f ∈ files.filter (fun f => !f.isDirectory) :=
    List.mem_filter.mpr ⟨hf, by simp [hd]⟩
  have hlen : 1 ≤ (files.filter (fun f => !f.isDirectory)).length := by
    cases hh : files.filter (fun f => !f.isDirectory) with
    | nil => rw [hh] at hmem; exact absurd hmem (List.not_mem_nil f)
    | cons a l => simp [hh]
  rw [encode_split_lines files allFiles opts hlen]
  exact List.mem_map.mpr ⟨f, hmem, rfl⟩

/-- Witness for C10: a selected file that both exclusion filters would
reject (`node_modules` directory pattern and binary `.png` extension)
is still encoded verbatim. -/
theorem claim_C10_witness :
    shouldExcludePath "node_modules/a.png" = true ∧
    shouldExcludeFile "node_modules/a.png" = true ∧
    ("\x7b\"repo\":" ++ jsonQuote (jsOrString (some "r") "repository") ++
      ",\"filename\":" ++ jsonQuote "node_modules/a.png" ++
      ",\"text\":" ++ jsonQuote "z" ++ "\x7d") ∈
      splitOnCharStr '\n' (encodeFilesWithStats
        [({ path := "node_modules/a.png", content := "z" } : FileEntry)] []
        { repoName := some "r" }).jsonlContent :=
  ⟨by decide, by decide,
    claim_C10 [{ path := "node_modules/a.png", content := "z" }] []
      { repoName := some "r" }
      { path := "node_modules/a.png", content := "z" } (by simp) rfl⟩

/-! ### Claim C2 (small-repository fast path of the sampler) -/

/-- The fast path of `sampleCodeFiles`: when the code files fit the
budget they are all returned unchanged. -/
theorem sampleCodeFiles_fast_path (files : List FileEntry)
    (options : SamplingOptions)
    (h : (files.filter (fun f => !f.isDirectory && isCodeFile f.path)).length
      ≤ options.maxFiles.getD 1000) :
    (sampleCodeFiles files options).samples =
      files.filter (fun f => !f.isDirectory && isCodeFile f.path) ∧
    (sampleCodeFiles files options).remaining = [] := by
  unfold sampleCodeFiles
  rw [if_pos h]
  exact ⟨rfl, rfl⟩

/-- Claim C2: whenever the number of non-directory files passing
`isCodeFile` is at most `maxFiles`, `sampleCodeFiles` returns exactly
that code-file list, in order, with empty `remaining`; in particular
an input without code files yields empty samples and no error. -/
theorem claim_C2 (files : List FileEntry) (options : SamplingOptions)
    (h : (files.filter (fun f => !f.isDirectory && isCodeFile f.path)).length
      ≤ options.maxFiles.getD 1000) :
    (sampleCodeFiles files options).samples =
      files.filter (fun f => !f.isDirectory && isCodeFile f.path) ∧
    (sampleCodeFiles files options).remaining = [] :=
  sampleCodeFiles_fast_path files options h

/-- Witness for C2: an input with no code files at all produces empty
samples (and, in the embedding, no division is ever evaluated). -/
theorem claim_C2_witness :
    (([({ path := "notes.txt" } : FileEntry)]).filter
      (fun f => !f.isDirectory && isCodeFile f.path)).length ≤
      (({} : SamplingOptions)).maxFiles.getD 1000 ∧
    (sampleCodeFiles [({ path := "notes.txt" } : FileEntry)] {}).samples = []
    ∧ (sampleCodeFiles [({ path := "notes.txt" } : FileEntry)] {}).remaining
      = [] := by
  refine ⟨by decide, ?_⟩
  have h := claim_C2 [({ path := "notes.txt" } : FileEntry)] {} (by decide)
  exact ⟨h.1.trans (by decide), h.2⟩

/-! ### Claim C8 (exclusion log) -/

/-- Claim C8: the exclusion log holds exactly one `{path, reason}`
entry per non-directory file of `allFiles` whose path is not among the
selected non-directory paths, in input order, with the directory
pattern reason taking precedence, then the binary-file reason, then
`"Unknown"` (files dropped purely by sampling are thus labeled
`"Unknown"`). -/
theorem claim_C8 (files allFiles : List FileEntry) (opts : EncodingOptions) :
    (encodeFilesWithStats files allFiles opts).exclusionLog =
      ((allFiles.filter (fun f => !f.isDirectory)).filter (fun f =>
          ¬ (f.path ∈ (files.filter (fun g => !g.isDirectory)).map
            (fun g => g.path)) )).map (fun f =>
        { path := f.path
          reason :=
            if shouldExcludePath f.path then
              "Excluded by directory pattern (node_modules, .git, etc.)"
            else if shouldExcludeFile f.path then
              "Binary file (image, archive, executable, etc.)"
            else "Unknown" : ExclusionLogEntry }) := by
  rw [show (encodeFilesWithStats files allFiles opts).exclusionLog =
    ((allFiles.filter (fun f => !f.isDirectory)).filter (fun f =>
        !((files.filter (fun g => !g.isDirectory)).map
          (fun g => g.path)).contains f.path)).map (fun f =>
      { path := f.path
        reason :=
          if shouldExcludePath f.path then
            "Excluded by directory pattern (node_modules, .git, etc.)"
          else if shouldExcludeFile f.path then
            "Binary file (image, archive, executable, etc.)"
          else "Unknown" : ExclusionLogEntry }) from rfl]
  congr 1
  apply List.filter_congr
  intro f _
  by_cases hmem : f.path ∈ (files.filter (fun g => !g.isDirectory)).map
    (fun g => g.path)
  · simp [hmem, List.elem_iff]
  · simp [hmem, List.elem_iff]

/-! ### Claim C7 (file-level exclusion predicate) -/

/-- The property claimed for `shouldExcludeFile`, defined from the
spec's words: the final `/`-segment of the path is a junk filename, or
begins with the resource-fork marker `._`, or has its lowercased
last-dot extension in the binary blocklist.  This is the claim side of
the refinement check, to be compared with the source-derived
`shouldExcludeFile`. -/
def shouldExcludeFileClaim (p : String) : Bool :=
  let seg := (splitOnCharStr '/' p).getLastD ""
  EXCLUDED_FILES.contains seg || jsStartsWith seg "._" ||
    BINARY_EXTENSIONS.contains (getFileExtension seg)

/-- Counterexample to C7 as stated: for `"._x/"` the final
`/`-segment is the empty string, which triggers none of the three
rules, yet `shouldExcludeFile` returns `true` because the source falls
back to testing the whole path (whose `._` prefix matches) when the
popped segment is the falsy empty string. -/
theorem claim_C7_counterexample :
    shouldExcludeFile "._x/" = true ∧ shouldExcludeFileClaim "._x/" = false
    := by
  constructor
  · decide
  · decide

/-- Claim C7 as amended: `shouldExcludeFile` tests the junk-name,
`._`-prefix and binary-extension rules against the final `/`-segment
of the path, except that when that segment is empty the whole path is
tested instead; the claim's concrete examples hold as stated. -/
theorem claim_C7_amended :
    (∀ p : String,
      shouldExcludeFile p =
        (let seg0 := (splitOnCharStr '/' p).getLastD ""
         let seg := if seg0 = "" then p else seg0
         EXCLUDED_FILES.contains seg || jsStartsWith seg "._" ||
           BINARY_EXTENSIONS.contains (getFileExtension seg))) ∧
    shouldExcludeFile "README.md" = false ∧
    shouldExcludeFile "image.PNG" = true ∧
    shouldExcludeFile "lib.js" = false ∧
    shouldExcludePath "node_modules/lib.js" = true ∧
    filterCodeFiles [({ path := "node_modules/lib.js" } : FileEntry)] = []
    := by
  have hgen : ∀ a b c : Bool,
      (if a then true else if b then true else c) = (a || b || c) := by
    decide
  refine ⟨?_, by decide, by decide, by decide, by decide, by decide⟩
  intro p
  exact hgen _ _ _

/-! ### Helper lemmas about the sampling loops -/

/-- Invariant carried by the sampler's mutable state: the budget is
respected, samples come from the pool, sampled paths are distinct, and
every sampled path has been recorded in the path set. -/
def StInv (maxFiles : Nat) (pool : List FileEntry) (st : SampleState) :
    Prop :=
  st.samples.length ≤ maxFiles ∧
  (∀ f ∈ st.samples, f ∈ pool) ∧
  (st.samples.map (fun f => f.path)).Nodup ∧
  (∀ f ∈ st.samples, f.path ∈ st.sampledPaths)

theorem sampleLoop_inv {maxFiles : Nat} {pool : List FileEntry} :
    ∀ (fs : List FileEntry) (st : SampleState),
      (∀ f ∈ fs, f ∈ pool) → StInv maxFiles pool st →
      StInv maxFiles pool (sampleLoop maxFiles fs st)
  | [], st, _, hinv => hinv
  | f :: fs, st, hfs, hinv => by
    obtain ⟨hlen, hpool, hnd, hrec⟩ := hinv
    rw [sampleLoop]
    split
    · rename_i hlt
      split
      · exact sampleLoop_inv fs st (fun g hg => hfs g (List.mem_cons_of_mem _ hg))
          ⟨hlen, hpool, hnd, hrec⟩
      · rename_i hcont
        have hfresh : f.path ∉ st.sampledPaths := by simpa using hcont
        refine sampleLoop_inv fs _
          (fun g hg => hfs g (List.mem_cons_of_mem _ hg)) ?_
        refine ⟨?_, ?_, ?_, ?_⟩
        · simpa using hlt
        · intro g hg
          rcases List.mem_append.mp hg with h | h
          · exact hpool g h
          · rw [List.mem_singleton.mp h]
            exact hfs f (by simp)
        · rw [List.map_append]
          rw [List.nodup_append]
          refine ⟨hnd, by simp, ?_⟩
          intro p hp
          simp only [List.map_cons, List.map_nil, List.mem_singleton]
          rintro rfl
          rcases List.mem_map.mp hp with ⟨g, hg, hgp⟩
          exact hfresh (hgp ▸ hrec g hg)
        · intro g hg
          rcases List.mem_append.mp hg with h | h
          · exact List.mem_cons_of_mem _ (hrec g h)
          · rw [List.mem_singleton.mp h]
            simp
    · exact ⟨hlen, hpool, hnd, hrec⟩

theorem sampleLoop_samples_mono (maxFiles : Nat) :
    ∀ (fs : List FileEntry) (st : SampleState),
      ∃ t, (sampleLoop maxFiles fs st).samples = st.samples ++ t
  | [], st => ⟨[], by simp [sampleLoop]⟩
  | f :: fs, st => by
    rw [sampleLoop]
    split
    · split
      · exact sampleLoop_samples_mono maxFiles fs st
      · obtain ⟨t, ht⟩ := sampleLoop_samples_mono maxFiles fs
          ⟨st.samples ++ [f], f.path :: st.sampledPaths⟩
        exact ⟨[f] ++ t, by rw [ht]; simp⟩
    · exact ⟨[], by simp⟩

theorem truncLoop_inv (maxFiles : Nat) (pool : List FileEntry) :
    ∀ (fs : List FileEntry) (st : SampleState),
      (∀ f ∈ fs, f ∈ pool) →
      (fs.map (fun f => f.path)).Nodup →
      (∀ f ∈ fs, f.path ∉ st.samples.map (fun g => g.path)) →
      StInv maxFiles pool st →
      StInv maxFiles pool (truncLoop maxFiles fs st)
  | [], st, _, _, _, hinv => hinv
  | f :: fs, st, hfs, hnd, hdisj, hinv => by
    obtain ⟨hlen, hpool, hsnd, hrec⟩ := hinv
    rw [truncLoop]
    split
    · exact ⟨hlen, hpool, hsnd, hrec⟩
    · rename_i hge
      have hlt : st.samples.length < maxFiles := by omega
      rw [List.map_cons, List.nodup_cons] at hnd
      refine truncLoop_inv maxFiles pool fs _
        (fun g hg => hfs g (List.mem_cons_of_mem _ hg)) hnd.2 ?_ ?_
      · intro g hg
        simp only [List.map_append, List.map_cons, List.map_nil,
          List.mem_append, List.mem_singleton, not_or]
        refine ⟨hdisj g (List.mem_cons_of_mem _ hg), ?_⟩
        intro hgp
        exact hnd.1 (hgp ▸ List.mem_map_of_mem (fun x => x.path) hg)
      · refine ⟨by simpa using hlt, ?_, ?_, ?_⟩
        · intro g hg
          rcases List.mem_append.mp hg with h | h
          · exact hpool g h
          · rw [List.mem_singleton.mp h]
            exact hfs f (by simp)
        · rw [List.map_append, List.nodup_append]
          exact ⟨hsnd, by simp, by
            intro p hp
            simp only [List.map_cons, List.map_nil, List.mem_singleton]
            rintro rfl
            exact hdisj f (by simp) hp⟩
        · intro g hg
          rcases List.mem_append.mp hg with h | h
          · exact List.mem_cons_of_mem _ (hrec g h)
          · rw [List.mem_singleton.mp h]
            simp

theorem mem_dedupFirstAux {α : Type} [DecidableEq α] :
    ∀ (l seen : List α) (a : α),
      a ∈ dedupFirstAux l seen ↔ a ∈ l ∧ a ∉ seen
  | [], seen, a => by simp [dedupFirstAux]
  | x :: xs, seen, a => by
    rw [dedupFirstAux]
    split
    · rename_i hx
      rw [mem_dedupFirstAux xs seen a]
      have hxseen : x ∈ seen := by simpa [List.elem_iff] using hx
      constructor
      · rintro ⟨h1, h2⟩
        exact ⟨List.mem_cons_of_mem _ h1, h2⟩
      · rintro ⟨h1, h2⟩
        rcases List.mem_cons.mp h1 with h3 | h3
        · exact absurd (h3 ▸ hxseen) h2
        · exact ⟨h3, h2⟩
    · rename_i hx
      have hxseen : x ∉ seen := by simpa [List.elem_iff] using hx
      by_cases hax : a = x
      · subst hax
        simp [hxseen]
      · rw [List.mem_cons]
        constructor
        · intro h
          rcases h with h | h
          · exact absurd h hax
          · obtain ⟨h1, h2⟩ := (mem_dedupFirstAux xs (x :: seen) a).mp h
            exact ⟨List.mem_cons_of_mem _ h1,
              fun hc => h2 (List.mem_cons_of_mem _ hc)⟩
        · rintro ⟨h1, h2⟩
          rcases List.mem_cons.mp h1 with h3 | h3
          · exact absurd h3 hax
          · exact Or.inr ((mem_dedupFirstAux xs (x :: seen) a).mpr
              ⟨h3, fun hc => by
                rcases List.mem_cons.mp hc with h4 | h4
                · exact hax h4
                · exact h2 h4⟩)

theorem mem_dedupFirst {α : Type} [DecidableEq α] (l : List α) (a : α) :
    a ∈ dedupFirst l ↔ a ∈ l := by
  unfold dedupFirst
  rw [mem_dedupFirstAux]
  simp

theorem lookup_keysMap_some {keys : List String}
    {g : String → List FileEntry} {lang : String} {v : List FileEntry}
    (h : List.lookup lang (keys.map (fun l => (l, g l))) = some v) :
    lang ∈ keys ∧ v = g lang := by
  induction keys with
  | nil => simp [List.lookup] at h
  | cons k ks ih =>
    rw [List.map_cons, List.lookup] at h
    cases hbeq : (lang == k) with
    | true =>
      rw [hbeq] at h
      have hk : lang = k := by simpa using hbeq
      subst hk
      have h2 : some (g lang) = some v := h
      exact ⟨by simp, (Option.some.injEq _ _ ▸ h2).symm⟩
    | false =>
      rw [hbeq] at h
      have h2 : List.lookup lang (ks.map (fun l => (l, g l))) = some v := h
      obtain ⟨h3, h4⟩ := ih h2
      exact ⟨List.mem_cons_of_mem _ h3, h4⟩

theorem lookup_keysMap_of_mem {keys : List String}
    {g : String → List FileEntry} {lang : String} (h : lang ∈ keys) :
    List.lookup lang (keys.map (fun l => (l, g l))) = some (g lang) := by
  induction keys with
  | nil => exact absurd h (List.not_mem_nil lang)
  | cons k ks ih =>
    rw [List.map_cons, List.lookup]
    cases hbeq : (lang == k) with
    | true =>
      have hk : lang = k := by simpa using hbeq
      subst hk
      rfl
    | false =>
      rcases List.mem_cons.mp h with h1 | h1
      · exact absurd h1 (by simpa using hbeq)
      · exact ih h1

theorem mem_lookupGroup {files : List FileEntry} {lang : String}
    {f : FileEntry}
    (h : f ∈ lookupGroup (groupFilesByLanguage files) lang) :
    f ∈ files.filter (fun f => !f.isDirectory && isCodeFile f.path) ∧
      detectLanguage f.path = lang := by
  unfold lookupGroup groupFilesByLanguage at h
  cases hlk : List.lookup lang
    ((dedupFirst ((files.filter
          (fun f => !f.isDirectory && isCodeFile f.path)).map
        (fun f => detectLanguage f.path))).map
      (fun l => (l, (files.filter
          (fun f => !f.isDirectory && isCodeFile f.path)).filter
        (fun f => detectLanguage f.path == l)))) with
  | none => rw [hlk] at h; simp at h
  | some v =>
    rw [hlk] at h
    obtain ⟨_, rfl⟩ := lookup_keysMap_some hlk
    simp only [Option.getD_some] at h
    have := List.mem_filter.mp h
    exact ⟨this.1, by simpa using this.2⟩

theorem lookupGroup_eq_of_mem {files : List FileEntry} {f : FileEntry}
    (hf : f ∈ files.filter (fun f => !f.isDirectory && isCodeFile f.path)) :
    lookupGroup (groupFilesByLanguage files) (detectLanguage f.path) =
      (files.filter (fun f => !f.isDirectory && isCodeFile f.path)).filter
        (fun g => detectLanguage g.path == detectLanguage f.path) := by
  unfold lookupGroup groupFilesByLanguage
  have hmem : detectLanguage f.path ∈
      dedupFirst ((files.filter
          (fun f => !f.isDirectory && isCodeFile f.path)).map
        (fun f => detectLanguage f.path)) := by
    rw [mem_dedupFirst]
    exact List.mem_map_of_mem _ hf
  rw [lookup_keysMap_of_mem hmem]
  rfl

theorem foldl_sampleLoop_inv {maxFiles : Nat} {pool : List FileEntry}
    {groups : List (String × List FileEntry)}
    (hg : ∀ lang, ∀ f ∈ lookupGroup groups lang, f ∈ pool)
    (k : String → Nat) :
    ∀ (langs : List String) (st : SampleState), StInv maxFiles pool st →
      StInv maxFiles pool (langs.foldl (fun st lang =>
        sampleLoop maxFiles ((lookupGroup groups lang).take (k lang)) st) st)
  | [], _, hinv => hinv
  | lang :: langs, st, hinv => by
    rw [List.foldl_cons]
    exact foldl_sampleLoop_inv hg k langs _
      (sampleLoop_inv _ st
        (fun f hf => hg lang f (List.mem_of_mem_take hf)) hinv)

theorem foldl_sampleLoop_samples_mono (maxFiles : Nat)
    (groups : List (String × List FileEntry)) (k : String → Nat) :
    ∀ (langs : List String) (st : SampleState),
      ∃ t, (langs.foldl (fun st lang =>
        sampleLoop maxFiles ((lookupGroup groups lang).take (k lang)) st)
          st).samples = st.samples ++ t
  | [], st => ⟨[], by simp⟩
  | lang :: langs, st => by
    rw [List.foldl_cons]
    obtain ⟨t1, ht1⟩ := sampleLoop_samples_mono maxFiles
      ((lookupGroup groups lang).take (k lang)) st
    obtain ⟨t2, ht2⟩ := foldl_sampleLoop_samples_mono maxFiles groups k langs
      (sampleLoop maxFiles ((lookupGroup groups lang).take (k lang)) st)
    exact ⟨t1 ++ t2, by rw [ht2, ht1, List.append_assoc]⟩

/-- The non-directory code files of an input, the sampler's working
set. -/
def codeFilesOf (files : List FileEntry) : List FileEntry :=
  files.filter (fun f => !f.isDirectory && isCodeFile f.path)

/-- One diversity pass of `sampleCodeFiles`: fold the inner sampling
loop over a list of languages, capping each language's contribution at
`min(available, maxPerLanguage, cap)`. -/
def passFold (maxFiles maxPerLanguage cap : Nat)
    (groups : List (String × List FileEntry)) (langs : List String)
    (st : SampleState) : SampleState :=
  langs.foldl (fun st lang =>
    sampleLoop maxFiles ((lookupGroup groups lang).take
      (min (lookupGroup groups lang).length (min maxPerLanguage cap))) st) st

/-- The state after the priority-language pass of `sampleCodeFiles`. -/
def priorityPass (files : List FileEntry) (options : SamplingOptions) :
    SampleState :=
  passFold (options.maxFiles.getD 1000) (options.maxPerLanguage.getD 100)
    (jsCeilDiv (options.maxFiles.getD 1000)
      (groupFilesByLanguage (codeFilesOf files)).length)
    (groupFilesByLanguage (codeFilesOf files))
    (options.priorityLanguages.getD []) ⟨[], []⟩

/-- The non-priority languages visited by the second pass. -/
def remainingLanguagesOf (files : List FileEntry)
    (options : SamplingOptions) : List String :=
  ((groupFilesByLanguage (codeFilesOf files)).map (fun g => g.1)).filter
    (fun lang => !(options.priorityLanguages.getD []).contains lang)

/-- The state after both diversity passes of `sampleCodeFiles`. -/
def secondPass (files : List FileEntry) (options : SamplingOptions) :
    SampleState :=
  if (remainingLanguagesOf files options).length > 0 ∧
      (options.maxFiles.getD 1000 -
        (priorityPass files options).samples.length) > 0 then
    passFold (options.maxFiles.getD 1000) (options.maxPerLanguage.getD 100)
      (jsCeilDiv (options.maxFiles.getD 1000 -
          (priorityPass files options).samples.length)
        (remainingLanguagesOf files options).length)
      (groupFilesByLanguage (codeFilesOf files))
      (remainingLanguagesOf files options) (priorityPass files options)
  else priorityPass files options

/-- The samples produced by `sampleCodeFiles` beyond the
small-repository fast path, written through the named passes. -/
theorem sampleCodeFiles_samples_else (files : List FileEntry)
    (options : SamplingOptions)
    (h : ¬ (files.filter
      (fun f => !f.isDirectory && isCodeFile f.path)).length ≤
        options.maxFiles.getD 1000) :
    (sampleCodeFiles files options).samples =
      (if options.prioritizeDiversity.getD true then
        secondPass files options
      else
        truncLoop (options.maxFiles.getD 1000) (codeFilesOf files)
          ⟨[], []⟩).samples := by
  unfold sampleCodeFiles secondPass priorityPass passFold
    remainingLanguagesOf codeFilesOf
  rw [if_neg h]

/-! ### Claim C3 (sampler invariants) -/

/-- Claim C3: for inputs with pairwise-distinct paths, the samples are
drawn from the non-directory code files, no path appears twice among
them, and their number never exceeds `maxFiles`. -/
theorem claim_C3 (files : List FileEntry) (options : SamplingOptions)
    (hnd : (files.map (fun f => f.path)).Nodup) :
    (∀ f ∈ (sampleCodeFiles files options).samples,
      f ∈ files.filter (fun f => !f.isDirectory && isCodeFile f.path)) ∧
    ((sampleCodeFiles files options).samples.map (fun f => f.path)).Nodup ∧
    (sampleCodeFiles files options).samples.length ≤
      options.maxFiles.getD 1000 := by
  have hndc : ((files.filter
      (fun f => !f.isDirectory && isCodeFile f.path)).map
        (fun f => f.path)).Nodup :=
    List.Nodup.sublist (List.Sublist.map _ (List.filter_sublist files)) hnd
  by_cases hle : (files.filter
      (fun f => !f.isDirectory && isCodeFile f.path)).length ≤
        options.maxFiles.getD 1000
  · obtain ⟨hs, _⟩ := sampleCodeFiles_fast_path files options hle
    rw [hs]
    exact ⟨fun f hf => hf, hndc, hle⟩
  · have hinv : StInv (options.maxFiles.getD 1000)
        (files.filter (fun f => !f.isDirectory && isCodeFile f.path))
        ⟨[], []⟩ := ⟨by simp, by simp, by simp, by simp⟩
    have hg : ∀ lang, ∀ f ∈ lookupGroup
        (groupFilesByLanguage (codeFilesOf files)) lang,
        f ∈ files.filter (fun f => !f.isDirectory && isCodeFile f.path) := by
      intro lang f hf
      have := (mem_lookupGroup hf).1
      have h2 := List.mem_filter.mp this
      exact List.mem_filter.mpr ⟨List.mem_of_mem_filter h2.1, by
        have h3 := List.mem_filter.mp h2.1
        exact h3.2⟩
    rw [sampleCodeFiles_samples_else files options hle]
    split
    · unfold secondPass
      have hstP : StInv (options.maxFiles.getD 1000)
          (files.filter (fun f => !f.isDirectory && isCodeFile f.path))
          (priorityPass files options) := by
        unfold priorityPass passFold
        exact foldl_sampleLoop_inv hg _ _ _ hinv
      split
      · unfold passFold
        have hfinal := foldl_sampleLoop_inv hg
          (fun lang => min (lookupGroup (groupFilesByLanguage
              (codeFilesOf files)) lang).length
            (min (options.maxPerLanguage.getD 100)
              (jsCeilDiv (options.maxFiles.getD 1000 -
                  (priorityPass files options).samples.length)
                (remainingLanguagesOf files options).length)))
          (remainingLanguagesOf files options)
          (priorityPass files options) hstP
        exact ⟨hfinal.2.1, hfinal.2.2.1, hfinal.1⟩
      · exact ⟨hstP.2.1, hstP.2.2.1, hstP.1⟩
    · have htr := truncLoop_inv (options.maxFiles.getD 1000)
        (files.filter (fun f => !f.isDirectory && isCodeFile f.path))
        (codeFilesOf files) ⟨[], []⟩ (fun f hf => hf) hndc (by simp) hinv
      exact ⟨htr.2.1, htr.2.2.1, htr.1⟩

/-! ### Claim C5 (priority-language representation) -/

theorem jsCeilDiv_pos {a b : Nat} (ha : 1 ≤ a) (hb : 1 ≤ b) :
    1 ≤ jsCeilDiv a b := by
  unfold jsCeilDiv
  rw [Nat.le_div_iff_mul_le hb]
  omega

/-- Claim C5 as amended: with `prioritizeDiversity = true`,
`priorityLanguages = [A]`, `maxFiles ≥ 1`, `maxPerLanguage ≥ 1`
(amendment: the claim omitted this, but `maxPerLanguage = 0` zeroes the
priority pass), and at least one non-directory code file of detected
language `A` in the input, the samples include a file of language
`A`. -/
theorem claim_C5_amended (files : List FileEntry)
    (options : SamplingOptions) (A : String)
    (hd : options.prioritizeDiversity.getD true = true)
    (hp : options.priorityLanguages.getD [] = [A])
    (hm : 1 ≤ options.maxFiles.getD 1000)
    (hmp : 1 ≤ options.maxPerLanguage.getD 100)
    (hex : ∃ f ∈ files, f.isDirectory = false ∧ isCodeFile f.path = true ∧
      detectLanguage f.path = A) :
    ∃ f ∈ (sampleCodeFiles files options).samples,
      detectLanguage f.path = A := by
  obtain ⟨f0, hf0mem, hdir, hcode, hlang⟩ := hex
  have hf0c : f0 ∈ codeFilesOf files :=
    List.mem_filter.mpr ⟨hf0mem, by simp [hdir, hcode]⟩
  by_cases hle : (files.filter
      (fun f => !f.isDirectory && isCodeFile f.path)).length ≤
        options.maxFiles.getD 1000
  · obtain ⟨hs, _⟩ := sampleCodeFiles_fast_path files options hle
    rw [hs]
    exact ⟨f0, hf0c, hlang⟩
  · have hf0cc : f0 ∈ (codeFilesOf files).filter
        (fun f => !f.isDirectory && isCodeFile f.path) :=
      List.mem_filter.mpr ⟨hf0c, by simp [hdir, hcode]⟩
    have hA := lookupGroup_eq_of_mem hf0cc
    rw [hlang] at hA
    have hf0grp : f0 ∈ lookupGroup
        (groupFilesByLanguage (codeFilesOf files)) A := by
      rw [hA]
      refine List.mem_filter.mpr ⟨hf0cc, ?_⟩
      rw [hlang]
      simp
    have hgrplen : 1 ≤ (groupFilesByLanguage (codeFilesOf files)).length
        := by
      unfold groupFilesByLanguage
      rw [List.length_map]
      have hmemk : detectLanguage f0.path ∈ dedupFirst
          (((codeFilesOf files).filter
            (fun f => !f.isDirectory && isCodeFile f.path)).map
              (fun f => detectLanguage f.path)) := by
        rw [mem_dedupFirst]
        exact List.mem_map_of_mem _ hf0cc
      cases hk : dedupFirst (((codeFilesOf files).filter
          (fun f => !f.isDirectory && isCodeFile f.path)).map
            (fun f => detectLanguage f.path)) with
      | nil => rw [hk] at hmemk; exact absurd hmemk (List.not_mem_nil _)
      | cons a l => simp
    have htoS : 1 ≤ min (lookupGroup
        (groupFilesByLanguage (codeFilesOf files)) A).length
        (min (options.maxPerLanguage.getD 100)
          (jsCeilDiv (options.maxFiles.getD 1000)
            (groupFilesByLanguage (codeFilesOf files)).length)) := by
      rcases (List.length_pos.mpr (List.ne_nil_of_mem hf0grp)) with hlp
      have hcd := jsCeilDiv_pos hm hgrplen
      omega
    have hpp : ∃ g t, detectLanguage g.path = A ∧
        (priorityPass files options).samples = g :: t := by
      unfold priorityPass passFold
      rw [hp, List.foldl_cons, List.foldl_nil]
      cases hlf : lookupGroup (groupFilesByLanguage (codeFilesOf files)) A
        with
      | nil => rw [hlf] at hf0grp; exact absurd hf0grp (List.not_mem_nil _)
      | cons g gs =>
        have hgA : detectLanguage g.path = A := by
          have : g ∈ lookupGroup
              (groupFilesByLanguage (codeFilesOf files)) A := by
            rw [hlf]; simp
          rw [hA] at this
          have := (List.mem_filter.mp this).2
          simpa using this
        rw [hlf] at htoS
        have hk2 : (g :: gs).length ⊓ (options.maxPerLanguage.getD 100 ⊓
            jsCeilDiv (options.maxFiles.getD 1000)
              (groupFilesByLanguage (codeFilesOf files)).length) =
            ((g :: gs).length ⊓ (options.maxPerLanguage.getD 100 ⊓
              jsCeilDiv (options.maxFiles.getD 1000)
                (groupFilesByLanguage (codeFilesOf files)).length) - 1)
              + 1 := by
          omega
        rw [hk2, List.take_succ_cons]
        have hstep : sampleLoop (options.maxFiles.getD 1000)
            (g :: gs.take ((g :: gs).length ⊓
              (options.maxPerLanguage.getD 100 ⊓
                jsCeilDiv (options.maxFiles.getD 1000)
                  (groupFilesByLanguage (codeFilesOf files)).length) - 1))
            ⟨[], []⟩ =
            sampleLoop (options.maxFiles.getD 1000)
              (gs.take ((g :: gs).length ⊓
                (options.maxPerLanguage.getD 100 ⊓
                  jsCeilDiv (options.maxFiles.getD 1000)
                    (groupFilesByLanguage (codeFilesOf files)).length) - 1))
              ⟨[g], [g.path]⟩ := by
          rw [sampleLoop]
          rw [if_pos (show (SampleState.mk [] []).samples.length <
            options.maxFiles.getD 1000 by simpa using hm)]
          rw [if_neg (by simp)]
          rfl
        obtain ⟨t3, ht3⟩ := sampleLoop_samples_mono
          (options.maxFiles.getD 1000)
          (gs.take ((g :: gs).length ⊓
            (options.maxPerLanguage.getD 100 ⊓
              jsCeilDiv (options.maxFiles.getD 1000)
                (groupFilesByLanguage (codeFilesOf files)).length) - 1))
          ⟨[g], [g.path]⟩
        refine ⟨g, t3, hgA, ?_⟩
        rw [hstep, ht3]
        rfl
    obtain ⟨g, t, hgA, hppeq⟩ := hpp
    rw [sampleCodeFiles_samples_else files options hle, if_pos hd]
    unfold secondPass
    split
    · unfold passFold
      obtain ⟨t2, ht2⟩ := foldl_sampleLoop_samples_mono
        (options.maxFiles.getD 1000)
        (groupFilesByLanguage (codeFilesOf files))
        (fun lang => min (lookupGroup
            (groupFilesByLanguage (codeFilesOf files)) lang).length
          (min (options.maxPerLanguage.getD 100)
            (jsCeilDiv (options.maxFiles.getD 1000 -
                (priorityPass files options).samples.length)
              (remainingLanguagesOf files options).length)))
        (remainingLanguagesOf files options) (priorityPass files options)
      rw [ht2, hppeq]
      exact ⟨g, by simp, hgA⟩
    · rw [hppeq]
      exact ⟨g, by simp, hgA⟩

/-- The concrete two-file input used to instantiate claim C5. -/
def c5files : List FileEntry := [{ path := "a.go" }, { path := "b.go" }]

/-- Options satisfying the amended claim C5 hypotheses. -/
def c5optsOne : SamplingOptions :=
  { maxFiles := some 1, maxPerLanguage := some 1,
    prioritizeDiversity := some true, priorityLanguages := some ["Go"] }

/-- Options refuting claim C5 as stated: `maxPerLanguage = 0`. -/
def c5optsZero : SamplingOptions :=
  { maxFiles := some 1, maxPerLanguage := some 0,
    prioritizeDiversity := some true, priorityLanguages := some ["Go"] }

/-- Witness for amended C5 at a concrete call. -/
theorem claim_C5_amended_witness :
    c5optsOne.prioritizeDiversity.getD true = true ∧
    1 ≤ c5optsOne.maxFiles.getD 1000 ∧
    1 ≤ c5optsOne.maxPerLanguage.getD 100 ∧
    (∃ f ∈ c5files, f.isDirectory = false ∧ isCodeFile f.path = true ∧
      detectLanguage f.path = "Go") ∧
    (∃ f ∈ (sampleCodeFiles c5files c5optsOne).samples,
      detectLanguage f.path = "Go") :=
  ⟨by decide, by decide, by decide, by decide,
    claim_C5_amended c5files c5optsOne "Go"
      (by decide) (by decide) (by decide) (by decide) (by decide)⟩

/-- Counterexample to C5 as stated: with `maxPerLanguage = 0` (an
options value the claim quantifies over) the priority pass samples
nothing and the second pass skips the priority language, so no file of
language `"Go"` is selected even though one exists and
`maxFiles ≥ 1`. -/
theorem claim_C5_counterexample :
    c5optsZero.prioritizeDiversity.getD true = true ∧
    c5optsZero.priorityLanguages.getD [] = ["Go"] ∧
    1 ≤ c5optsZero.maxFiles.getD 1000 ∧
    (∃ f ∈ c5files, f.isDirectory = false ∧ isCodeFile f.path = true ∧
      detectLanguage f.path = "Go") ∧
    ¬ (∃ f ∈ (sampleCodeFiles c5files c5optsZero).samples,
      detectLanguage f.path = "Go") := by
  refine ⟨by decide, by decide, by decide, by decide, ?_⟩
  decide

/-! ### Claim C3 witness -/

/-- Witness for C3 at a concrete call. -/
theorem claim_C3_witness :
    (([({ path := "a.go" } : FileEntry), { path := "b.txt" }]).map
      (fun f => f.path)).Nodup ∧
    ((∀ f ∈ (sampleCodeFiles
        [({ path := "a.go" } : FileEntry), { path := "b.txt" }] {}).samples,
      f ∈ ([({ path := "a.go" } : FileEntry), { path := "b.txt" }]).filter
        (fun f => !f.isDirectory && isCodeFile f.path)) ∧
    ((sampleCodeFiles
        [({ path := "a.go" } : FileEntry), { path := "b.txt" }]
        {}).samples.map (fun f => f.path)).Nodup ∧
    (sampleCodeFiles
        [({ path := "a.go" } : FileEntry), { path := "b.txt" }]
        {}).samples.length ≤ (({} : SamplingOptions)).maxFiles.getD 1000) :=
  ⟨by decide,
    claim_C3 [{ path := "a.go" }, { path := "b.txt" }] {} (by decide)⟩

/-! ### Claim C9 (percentage sum) -/

theorem perm_insertByLines (a : LanguageFileStats) :
    ∀ l : List LanguageFileStats,
      List.Perm (insertByLines a l) (a :: l)
  | [] => by simp [insertByLines]
  | b :: bs => by
    rw [insertByLines]
    split
    · exact List.Perm.refl _
    · exact (List.Perm.cons b (perm_insertByLines a bs)).trans
        (List.Perm.swap a b bs)

theorem perm_sortByLinesDesc :
    ∀ l : List LanguageFileStats, List.Perm (sortByLinesDesc l) l
  | [] => by simp [sortByLinesDesc]
  | a :: l => by
    rw [sortByLinesDesc, List.foldr_cons]
    exact (perm_insertByLines a _).trans
      (List.Perm.cons a (perm_sortByLinesDesc l))

theorem sum_round_ratio_bound (T : Nat) :
    ∀ vals : List Nat,
      |((vals.map (fun (v : Nat) =>
          ((round (((v : ℚ) / T) * 100) : ℤ) : ℚ))).sum -
        (vals.map (fun (v : Nat) => ((v : ℚ) / T) * 100)).sum)| ≤
        (vals.length : ℚ) * (1 / 2)
  | [] => by simp
  | v :: vals => by
    rw [List.map_cons, List.map_cons, List.sum_cons, List.sum_cons]
    have h1 : |((round (((v : ℚ) / T) * 100) : ℤ) : ℚ) -
        ((v : ℚ) / T) * 100| ≤ 1 / 2 := by
      rw [abs_sub_comm]
      exact abs_sub_round _
    have h2 := sum_round_ratio_bound T vals
    calc |((round (((v : ℚ) / T) * 100) : ℤ) : ℚ) +
          (vals.map (fun (v : Nat) =>
            ((round (((v : ℚ) / T) * 100) : ℤ) : ℚ))).sum -
          (((v : ℚ) / T) * 100 +
            (vals.map (fun (v : Nat) => ((v : ℚ) / T) * 100)).sum)|
        = |(((round (((v : ℚ) / T) * 100) : ℤ) : ℚ) -
            ((v : ℚ) / T) * 100) +
          ((vals.map (fun (v : Nat) =>
            ((round (((v : ℚ) / T) * 100) : ℤ) : ℚ))).sum -
            (vals.map (fun (v : Nat) => ((v : ℚ) / T) * 100)).sum)| := by
          congr 1
          ring
      _ ≤ |((round (((v : ℚ) / T) * 100) : ℤ) : ℚ) -
            ((v : ℚ) / T) * 100| +
          |(vals.map (fun (v : Nat) =>
            ((round (((v : ℚ) / T) * 100) : ℤ) : ℚ))).sum -
            (vals.map (fun (v : Nat) => ((v : ℚ) / T) * 100)).sum| :=
          abs_add _ _
      _ ≤ 1 / 2 + (vals.length : ℚ) * (1 / 2) := add_le_add h1 h2
      _ = ((v :: vals).length : ℚ) * (1 / 2) := by
          rw [List.length_cons]
          push_cast
          ring

theorem sum_ratio_eq (T : Nat) (hT : 0 < T) (vals : List Nat)
    (hsum : vals.sum = T) :
    (vals.map (fun (v : Nat) => ((v : ℚ) / T) * 100)).sum = 100 := by
  have hTQ : (T : ℚ) ≠ 0 := by
    exact_mod_cast Nat.pos_iff_ne_zero.mp hT
  have h1 : (vals.map (fun (v : Nat) => ((v : ℚ) / T) * 100)) =
      vals.map (fun (v : Nat) => (v : ℚ) * (100 / T)) := by
    apply List.map_congr_left
    intro v _
    field_simp
  rw [h1]
  have h2 : ∀ ws : List Nat,
      (ws.map (fun (v : Nat) => (v : ℚ) * (100 / T))).sum =
      ((ws.map (fun (v : Nat) => (v : ℚ))).sum) * (100 / T) := by
    intro ws
    induction ws with
    | nil => simp
    | cons x xs ih =>
      rw [List.map_cons, List.sum_cons, List.map_cons, List.sum_cons, ih,
        add_mul]
  rw [h2]
  have h3 : (vals.map (fun (v : Nat) => (v : ℚ))).sum = (T : ℚ) := by
    rw [← hsum]
    exact (Nat.cast_list_sum vals).symm
  rw [h3]
  field_simp

/-- The per-key grouped weight over `xs`, summed across the
deduplicated key list, equals the total weight of elements whose key
was not yet seen. -/
theorem sum_over_dedupFirstAux {α β : Type} [DecidableEq β]
    (k : α → β) (w : α → Nat) :
    ∀ (xs : List α) (seen : List β),
      ((dedupFirstAux (xs.map k) seen).map (fun b =>
        ((xs.filter (fun x => k x == b)).map w).sum)).sum =
      ((xs.filter (fun x => !seen.contains (k x))).map w).sum
  | [], seen => by simp [dedupFirstAux]
  | x :: xs, seen => by
    rw [List.map_cons, dedupFirstAux]
    split
    · rename_i hx
      have hxseen : k x ∈ seen := by simpa [List.elem_iff] using hx
      have hcongr : (dedupFirstAux (xs.map k) seen).map (fun b =>
            (((x :: xs).filter (fun y => k y == b)).map w).sum) =
          (dedupFirstAux (xs.map k) seen).map (fun b =>
            ((xs.filter (fun y => k y == b)).map w).sum) := by
        apply List.map_congr_left
        intro b hb
        obtain ⟨_, hbs⟩ := (mem_dedupFirstAux (xs.map k) seen b).mp hb
        have hne : (k x == b) = false := by
          by_contra hc
          rw [Bool.not_eq_false, beq_iff_eq] at hc
          exact hbs (hc ▸ hxseen)
        rw [List.filter_cons_of_neg (by simp [hne])]
      rw [hcongr, sum_over_dedupFirstAux k w xs seen,
        List.filter_cons_of_neg (by simp [List.elem_iff, hxseen])]
    · rename_i hx
      have hxseen : k x ∉ seen := by simpa [List.elem_iff] using hx
      have hcongr : (dedupFirstAux (xs.map k) (k x :: seen)).map (fun b =>
            (((x :: xs).filter (fun y => k y == b)).map w).sum) =
          (dedupFirstAux (xs.map k) (k x :: seen)).map (fun b =>
            ((xs.filter (fun y => k y == b)).map w).sum) := by
        apply List.map_congr_left
        intro b hb
        obtain ⟨_, hbs⟩ := (mem_dedupFirstAux (xs.map k) (k x :: seen)
          b).mp hb
        have hne : (k x == b) = false := by
          by_contra hc
          rw [Bool.not_eq_false, beq_iff_eq] at hc
          exact hbs (hc ▸ List.mem_cons_self (k x) seen)
        rw [List.filter_cons_of_neg (by simp [hne])]
      have hsplit : ((xs.filter
            (fun y => !seen.contains (k y))).map w).sum =
          ((xs.filter (fun y => k y == k x)).map w).sum +
            ((xs.filter (fun y =>
              !(k x :: seen).contains (k y))).map w).sum := by
        have hperm := List.filter_append_perm
          (fun y => k y == k x) (xs.filter (fun y => !seen.contains (k y)))
        have hsum := (hperm.map w).sum_eq
        have e1 : (xs.filter (fun y => !seen.contains (k y))).filter
            (fun y => k y == k x) = xs.filter (fun y => k y == k x) := by
          rw [List.filter_filter]
          apply List.filter_congr
          intro y _
          by_cases hy : k y = k x
          · rw [hy]
            simp [List.elem_iff, hxseen]
          · simp [hy]
        have e2 : (xs.filter (fun y => !seen.contains (k y))).filter
            (fun y => !(k y == k x)) =
            xs.filter (fun y => !(k x :: seen).contains (k y)) := by
          rw [List.filter_filter]
          apply List.filter_congr
          intro y _
          rw [List.contains_cons]
          by_cases hy : k y = k x
          · simp [hy]
          · by_cases hys : k y ∈ seen
            · simp [hy, List.elem_iff, hys]
            · simp [hy, List.elem_iff, hys]
        rw [e1, e2] at hsum
        rw [← hsum, List.map_append, List.sum_append]
      rw [List.map_cons, List.sum_cons, hcongr,
        sum_over_dedupFirstAux k w xs (k x :: seen),
        List.filter_cons_of_pos (by simp),
        List.filter_cons_of_pos (by simp [List.elem_iff, hxseen]),
        List.map_cons, List.sum_cons, List.map_cons, List.sum_cons, hsplit]
      ring

/-- Core percentage-sum bound: over the deduplicated language keys of
a non-directory file list with positive total lines, the rounded
percentages sum to within plus or minus the number of keys of 100. -/
theorem percent_sum_bound (nd : List FileEntry)
    (hT : 0 < (nd.map (fun f => f.lineCount.getD 0)).sum) :
    |((dedupFirst (nd.map (fun f => detectLanguage f.path))).map
        (fun lang =>
          jsPercentage
            (((nd.filter (fun f => detectLanguage f.path == lang)).map
              (fun f => f.lineCount.getD 0)).sum)
            ((nd.map (fun f => f.lineCount.getD 0)).sum)) : List Int).sum
        - 100| ≤
      ((dedupFirst (nd.map (fun f => detectLanguage f.path))).length :
        Int) := by
  have h1 : ((dedupFirst (nd.map (fun f => detectLanguage f.path))).map
      (fun lang =>
        jsPercentage
          (((nd.filter (fun f => detectLanguage f.path == lang)).map
            (fun f => f.lineCount.getD 0)).sum)
          ((nd.map (fun f => f.lineCount.getD 0)).sum))) =
      ((dedupFirst (nd.map (fun f => detectLanguage f.path))).map
        (fun lang =>
          ((nd.filter (fun f => detectLanguage f.path == lang)).map
            (fun f => f.lineCount.getD 0)).sum)).map
        (fun (v : Nat) => round (((v : ℚ) /
          ((nd.map (fun f => f.lineCount.getD 0)).sum)) * 100)) := by
    rw [List.map_map]
    apply List.map_congr_left
    intro lang _
    show jsPercentage _ _ = _
    unfold jsPercentage
    rw [if_pos hT]
    rfl
  have h2 : ((dedupFirst (nd.map (fun f => detectLanguage f.path))).map
      (fun lang =>
        ((nd.filter (fun f => detectLanguage f.path == lang)).map
          (fun f => f.lineCount.getD 0)).sum)).sum =
      (nd.map (fun f => f.lineCount.getD 0)).sum := by
    have hfe : nd.filter (fun x =>
        !(([] : List String).contains (detectLanguage x.path))) = nd :=
      List.filter_eq_self.mpr (fun a _ => rfl)
    have := sum_over_dedupFirstAux (fun f => detectLanguage f.path)
      (fun f => f.lineCount.getD 0) nd []
    rw [hfe] at this
    exact this
  rw [h1]
  have h3 := sum_round_ratio_bound
    ((nd.map (fun f => f.lineCount.getD 0)).sum)
    ((dedupFirst (nd.map (fun f => detectLanguage f.path))).map
      (fun lang =>
        ((nd.filter (fun f => detectLanguage f.path == lang)).map
          (fun f => f.lineCount.getD 0)).sum))
  have h4 := sum_ratio_eq ((nd.map (fun f => f.lineCount.getD 0)).sum) hT
    ((dedupFirst (nd.map (fun f => detectLanguage f.path))).map
      (fun lang =>
        ((nd.filter (fun f => detectLanguage f.path == lang)).map
          (fun f => f.lineCount.getD 0)).sum)) h2
  rw [h4] at h3
  rw [List.length_map] at h3
  have hcast : ((((dedupFirst (nd.map (fun f => detectLanguage f.path))).map
      (fun lang =>
        ((nd.filter (fun f => detectLanguage f.path == lang)).map
          (fun f => f.lineCount.getD 0)).sum)).map
        (fun (v : Nat) => round (((v : ℚ) /
          ((nd.map (fun f => f.lineCount.getD 0)).sum)) * 100))).sum :
        ℚ) =
      (((dedupFirst (nd.map (fun f => detectLanguage f.path))).map
        (fun lang =>
          ((nd.filter (fun f => detectLanguage f.path == lang)).map
            (fun f => f.lineCount.getD 0)).sum)).map
        (fun (v : Nat) => ((round (((v : ℚ) /
          ((nd.map (fun f => f.lineCount.getD 0)).sum)) * 100) : ℤ) :
            ℚ))).sum := by
    rw [Int.cast_list_sum, List.map_map]
    rfl
  have hq : |((((dedupFirst (nd.map (fun f => detectLanguage f.path))).map
      (fun lang =>
        ((nd.filter (fun f => detectLanguage f.path == lang)).map
          (fun f => f.lineCount.getD 0)).sum)).map
        (fun (v : Nat) => round (((v : ℚ) /
          ((nd.map (fun f => f.lineCount.getD 0)).sum)) * 100))).sum :
        ℚ) - 100| ≤
      (((dedupFirst (nd.map (fun f => detectLanguage f.path))).length :
        ℚ)) := by
    rw [hcast]
    refine le_trans h3 ?_
    have hnn : (0 : ℚ) ≤
        ((dedupFirst (nd.map (fun f => detectLanguage f.path))).length :
          ℚ) := by positivity
    linarith
  exact_mod_cast hq

/-- Claim C9 as amended: when `totalLines` is positive, the language
percentages of `calculateRepositoryStats` sum to within plus or minus
the number of languages of 100.  (When `totalLines = 0` every
percentage is 0 and the sum is 0, so the bound fails for fewer than
100 languages.) -/
theorem claim_C9_amended (files : List FileEntry)
    (h : 0 < (calculateRepositoryStats files).totalLines) :
    |((calculateRepositoryStats files).languages.map
        (fun l => l.percentage)).sum - 100| ≤
      ((calculateRepositoryStats files).languages.length : Int) := by
  have hperm : List.Perm (calculateRepositoryStats files).languages
      ((dedupFirst ((files.filter (fun f => !f.isDirectory)).map
        (fun f => detectLanguage f.path))).map (fun lang =>
        { language := lang
          lineCount := (((files.filter (fun f => !f.isDirectory)).filter
            (fun f => detectLanguage f.path == lang)).map
              (fun f => f.lineCount.getD 0)).sum
          charCount := (((files.filter (fun f => !f.isDirectory)).filter
            (fun f => detectLanguage f.path == lang)).map
              (fun f => f.content.length)).sum
          fileCount := ((files.filter (fun f => !f.isDirectory)).filter
            (fun f => detectLanguage f.path == lang)).length
          percentage := jsPercentage
            ((((files.filter (fun f => !f.isDirectory)).filter
              (fun f => detectLanguage f.path == lang)).map
                (fun f => f.lineCount.getD 0)).sum)
            (((files.filter (fun f => !f.isDirectory)).map
              (fun f => f.lineCount.getD 0)).sum) :
          LanguageFileStats })) :=
    perm_sortByLinesDesc _
  have hsum := (hperm.map (fun l => l.percentage)).sum_eq
  have hlen := hperm.length_eq
  rw [hsum, hlen, List.map_map, List.length_map]
  exact percent_sum_bound (files.filter (fun f => !f.isDirectory)) h

/-- Witness for amended C9 at a concrete call: two languages, 7 and 3
lines, percentages 70 and 30. -/
theorem claim_C9_amended_witness :
    0 < (calculateRepositoryStats
      [({ path := "a.py", lineCount := some 7 } : FileEntry),
       { path := "b.ts", lineCount := some 3 }]).totalLines ∧
    |((calculateRepositoryStats
        [({ path := "a.py", lineCount := some 7 } : FileEntry),
         { path := "b.ts", lineCount := some 3 }]).languages.map
        (fun l => l.percentage)).sum - 100| ≤
      ((calculateRepositoryStats
        [({ path := "a.py", lineCount := some 7 } : FileEntry),
         { path := "b.ts", lineCount := some 3 }]).languages.length :
          Int) :=
  ⟨by decide,
    claim_C9_amended
      [{ path := "a.py", lineCount := some 7 },
       { path := "b.ts", lineCount := some 3 }] (by decide)⟩

/-- Counterexample to C9 as stated: a single Python file with zero
recorded lines gives one language with percentage 0, whose sum 0 is
not within plus or minus 1 of 100. -/
theorem claim_C9_counterexample :
    ¬ (|((calculateRepositoryStats
        [({ path := "a.py", lineCount := some 0 } : FileEntry)]).languages.map
        (fun l => l.percentage)).sum - 100| ≤
      ((calculateRepositoryStats
        [({ path := "a.py", lineCount := some 0 } : FileEntry)]).languages.length :
          Int)) := by
  decide

/-! ### Claim C4: the 10,000-file, 3-language, `maxFiles = 5000`
scenario.  The input is built from distinct three-character suffixes
over a 16-character alphabet: 3334 Go files, 3333 Rust files and 3333
Kotlin files. -/

/-- Sixteen distinct suffix characters. -/
def hexChars : List Char :=
  ['g', 'h', 'j', 'k', 'm', 'n', 'p', 'q',
   'r', 's', 't', 'u', 'v', 'w', 'x', 'y']

/-- All 4096 three-character suffixes. -/
def suffixTriples : List (Char × Char × Char) :=
  hexChars.product (hexChars.product hexChars)

/-- A Go file named `a<c1><c2><c3>.go`. -/
def mkGo (t : Char × Char × Char) : FileEntry :=
  { path := String.mk ['a', t.1, t.2.1, t.2.2, '.', 'g', 'o'] }

/-- A Rust file named `b<c1><c2><c3>.rs`. -/
def mkRs (t : Char × Char × Char) : FileEntry :=
  { path := String.mk ['b', t.1, t.2.1, t.2.2, '.', 'r', 's'] }

/-- A Kotlin file named `c<c1><c2><c3>.kt`. -/
def mkKt (t : Char × Char × Char) : FileEntry :=
  { path := String.mk ['c', t.1, t.2.1, t.2.2, '.', 'k', 't'] }

def goFiles : List FileEntry := (suffixTriples.take 3334).map mkGo

def rsFiles : List FileEntry := (suffixTriples.take 3333).map mkRs

def ktFiles : List FileEntry := (suffixTriples.take 3333).map mkKt

/-- The scenario's 10,000 code files across three languages. -/
def bigFiles : List FileEntry := goFiles ++ rsFiles ++ ktFiles

/-- The scenario's options: `maxFiles = 5000`,
`priorityLanguages = ['Python']`, `prioritizeDiversity = true`,
`maxPerLanguage` left at its default. -/
def bigOpts : SamplingOptions :=
  { maxFiles := some 5000, prioritizeDiversity := some true,
    priorityLanguages := some ["Python"] }

theorem mkGo_code (t : Char × Char × Char) :
    (!(mkGo t).isDirectory && isCodeFile (mkGo t).path) = true := rfl

theorem mkRs_code (t : Char × Char × Char) :
    (!(mkRs t).isDirectory && isCodeFile (mkRs t).path) = true := rfl

theorem mkKt_code (t : Char × Char × Char) :
    (!(mkKt t).isDirectory && isCodeFile (mkKt t).path) = true := rfl

theorem mkGo_lang (t : Char × Char × Char) :
    detectLanguage (mkGo t).path = "Go" := rfl

theorem mkRs_lang (t : Char × Char × Char) :
    detectLanguage (mkRs t).path = "Rust" := rfl

theorem mkKt_lang (t : Char × Char × Char) :
    detectLanguage (mkKt t).path = "Kotlin" := rfl

theorem suffixTriples_length : suffixTriples.length = 4096 := by
  show ((hexChars ×ˢ (hexChars ×ˢ hexChars)) : List _).length = 4096
  rw [List.length_product, List.length_product]
  rfl

theorem goFiles_length : goFiles.length = 3334 := by
  unfold goFiles
  rw [List.length_map, List.length_take, suffixTriples_length]
  decide

theorem rsFiles_length : rsFiles.length = 3333 := by
  unfold rsFiles
  rw [List.length_map, List.length_take, suffixTriples_length]
  decide

theorem ktFiles_length : ktFiles.length = 3333 := by
  unfold ktFiles
  rw [List.length_map, List.length_take, suffixTriples_length]
  decide

theorem bigFiles_length : bigFiles.length = 10000 := by
  unfold bigFiles
  rw [List.length_append, List.length_append, goFiles_length,
    rsFiles_length, ktFiles_length]

theorem mkGo_path_inj : Function.Injective (fun t => (mkGo t).path) := by
  rintro ⟨a1, a2, a3⟩ ⟨b1, b2, b3⟩ h
  have h2 : ['a', a1, a2, a3, '.', 'g', 'o'] =
      ['a', b1, b2, b3, '.', 'g', 'o'] := congrArg String.data h
  simp only [List.cons.injEq, and_true, true_and] at h2
  obtain ⟨e1, e2, e3⟩ := h2
  simp [e1, e2, e3]

theorem mkRs_path_inj : Function.Injective (fun t => (mkRs t).path) := by
  rintro ⟨a1, a2, a3⟩ ⟨b1, b2, b3⟩ h
  have h2 : ['b', a1, a2, a3, '.', 'r', 's'] =
      ['b', b1, b2, b3, '.', 'r', 's'] := congrArg String.data h
  simp only [List.cons.injEq, and_true, true_and] at h2
  obtain ⟨e1, e2, e3⟩ := h2
  simp [e1, e2, e3]

theorem mkKt_path_inj : Function.Injective (fun t => (mkKt t).path) := by
  rintro ⟨a1, a2, a3⟩ ⟨b1, b2, b3⟩ h
  have h2 : ['c', a1, a2, a3, '.', 'k', 't'] =
      ['c', b1, b2, b3, '.', 'k', 't'] := congrArg String.data h
  simp only [List.cons.injEq, and_true, true_and] at h2
  obtain ⟨e1, e2, e3⟩ := h2
  simp [e1, e2, e3]

theorem mkGo_path_ne_mkRs (t u : Char × Char × Char) :
    (mkGo t).path ≠ (mkRs u).path := by
  intro h
  have h2 := congrArg String.data h
  simp [mkGo, mkRs] at h2

theorem mkGo_path_ne_mkKt (t u : Char × Char × Char) :
    (mkGo t).path ≠ (mkKt u).path := by
  intro h
  have h2 := congrArg String.data h
  simp [mkGo, mkKt] at h2

theorem mkRs_path_ne_mkKt (t u : Char × Char × Char) :
    (mkRs t).path ≠ (mkKt u).path := by
  intro h
  have h2 := congrArg String.data h
  simp [mkRs, mkKt] at h2

theorem hexChars_nodup : hexChars.Nodup := by decide

theorem suffixTriples_nodup : suffixTriples.Nodup :=
  List.Nodup.product hexChars_nodup
    (List.Nodup.product hexChars_nodup hexChars_nodup)

theorem goFiles_paths_nodup :
    (goFiles.map (fun f => f.path)).Nodup := by
  unfold goFiles
  rw [List.map_map]
  exact List.Nodup.map mkGo_path_inj
    (List.Nodup.sublist (List.take_sublist _ _) suffixTriples_nodup)

theorem rsFiles_paths_nodup :
    (rsFiles.map (fun f => f.path)).Nodup := by
  unfold rsFiles
  rw [List.map_map]
  exact List.Nodup.map mkRs_path_inj
    (List.Nodup.sublist (List.take_sublist _ _) suffixTriples_nodup)

theorem ktFiles_paths_nodup :
    (ktFiles.map (fun f => f.path)).Nodup := by
  unfold ktFiles
  rw [List.map_map]
  exact List.Nodup.map mkKt_path_inj
    (List.Nodup.sublist (List.take_sublist _ _) suffixTriples_nodup)

theorem bigFiles_filter_code : bigFiles.filter
    (fun f => !f.isDirectory && isCodeFile f.path) = bigFiles := by
  apply List.filter_eq_self.mpr
  intro f hf
  unfold bigFiles at hf
  rcases List.mem_append.mp hf with hf | hf
  · rcases List.mem_append.mp hf with hf | hf
    · obtain ⟨t, _, rfl⟩ := List.mem_map.mp hf
      exact mkGo_code t
    · obtain ⟨t, _, rfl⟩ := List.mem_map.mp hf
      exact mkRs_code t
  · obtain ⟨t, _, rfl⟩ := List.mem_map.mp hf
    exact mkKt_code t

theorem goFiles_map_lang :
    goFiles.map (fun f => detectLanguage f.path) =
      List.replicate 3334 "Go" := by
  unfold goFiles
  rw [List.map_map]
  have hc : List.map ((fun f => detectLanguage f.path) ∘ mkGo)
      (suffixTriples.take 3334) =
      List.map (fun _ => "Go") (suffixTriples.take 3334) :=
    List.map_congr_left (fun t _ => mkGo_lang t)
  rw [hc, List.map_const', List.length_take, suffixTriples_length,
    show ((3334 : Nat) ⊓ 4096) = 3334 from by decide]

theorem rsFiles_map_lang :
    rsFiles.map (fun f => detectLanguage f.path) =
      List.replicate 3333 "Rust" := by
  unfold rsFiles
  rw [List.map_map]
  have hc : List.map ((fun f => detectLanguage f.path) ∘ mkRs)
      (suffixTriples.take 3333) =
      List.map (fun _ => "Rust") (suffixTriples.take 3333) :=
    List.map_congr_left (fun t _ => mkRs_lang t)
  rw [hc, List.map_const', List.length_take, suffixTriples_length,
    show ((3333 : Nat) ⊓ 4096) = 3333 from by decide]

theorem ktFiles_map_lang :
    ktFiles.map (fun f => detectLanguage f.path) =
      List.replicate 3333 "Kotlin" := by
  unfold ktFiles
  rw [List.map_map]
  have hc : List.map ((fun f => detectLanguage f.path) ∘ mkKt)
      (suffixTriples.take 3333) =
      List.map (fun _ => "Kotlin") (suffixTriples.take 3333) :=
    List.map_congr_left (fun t _ => mkKt_lang t)
  rw [hc, List.map_const', List.length_take, suffixTriples_length,
    show ((3333 : Nat) ⊓ 4096) = 3333 from by decide]

theorem dedupFirstAux_replicate_skip {α : Type} [DecidableEq α] {x : α}
    {seen : List α} (hx : x ∈ seen) :
    ∀ (n : Nat) (rest : List α),
      dedupFirstAux (List.replicate n x ++ rest) seen =
        dedupFirstAux rest seen
  | 0, rest => by simp
  | n + 1, rest => by
    rw [List.replicate_succ, List.cons_append, dedupFirstAux,
      if_pos (by simpa [List.elem_iff] using hx)]
    exact dedupFirstAux_replicate_skip hx n rest

theorem dedupFirstAux_replicate_cons {α : Type} [DecidableEq α] {x : α}
    {seen : List α} (hx : x ∉ seen) (n : Nat) (rest : List α) :
    dedupFirstAux (List.replicate (n + 1) x ++ rest) seen =
      x :: dedupFirstAux rest (x :: seen) := by
  rw [List.replicate_succ, List.cons_append, dedupFirstAux,
    if_neg (by simpa [List.elem_iff] using hx)]
  rw [dedupFirstAux_replicate_skip (List.mem_cons_self x seen) n rest]

theorem bigFiles_keys :
    dedupFirst (bigFiles.map (fun f => detectLanguage f.path)) =
      ["Go", "Rust", "Kotlin"] := by
  unfold bigFiles dedupFirst
  rw [List.map_append, List.map_append, goFiles_map_lang, rsFiles_map_lang,
    ktFiles_map_lang, List.append_assoc]
  rw [show (3334 : Nat) = 3333 + 1 from rfl,
    dedupFirstAux_replicate_cons (by simp) 3333 _]
  rw [show (3333 : Nat) = 3332 + 1 from rfl,
    dedupFirstAux_replicate_cons (by decide) 3332 _]
  rw [← List.append_nil (List.replicate (3332 + 1) "Kotlin")]
  rw [dedupFirstAux_replicate_cons (by decide) 3332 []]
  rfl

theorem bigFiles_filter_go :
    bigFiles.filter (fun f => detectLanguage f.path == "Go") = goFiles := by
  unfold bigFiles
  rw [List.filter_append, List.filter_append]
  rw [List.filter_eq_self.mpr (fun f hf => by
    obtain ⟨t, _, rfl⟩ := List.mem_map.mp hf
    rw [mkGo_lang t]
    rfl)]
  rw [List.filter_eq_nil_iff.mpr (fun f hf => by
    obtain ⟨t, _, rfl⟩ := List.mem_map.mp hf
    rw [mkRs_lang t]
    decide)]
  rw [List.filter_eq_nil_iff.mpr (fun f hf => by
    obtain ⟨t, _, rfl⟩ := List.mem_map.mp hf
    rw [mkKt_lang t]
    decide)]
  simp

theorem bigFiles_filter_rs :
    bigFiles.filter (fun f => detectLanguage f.path == "Rust") = rsFiles
    := by
  unfold bigFiles
  rw [List.filter_append, List.filter_append]
  rw [List.filter_eq_nil_iff.mpr (fun f hf => by
    obtain ⟨t, _, rfl⟩ := List.mem_map.mp hf
    rw [mkGo_lang t]
    decide)]
  rw [List.filter_eq_self.mpr (fun f hf => by
    obtain ⟨t, _, rfl⟩ := List.mem_map.mp hf
    rw [mkRs_lang t]
    rfl)]
  rw [List.filter_eq_nil_iff.mpr (fun f hf => by
    obtain ⟨t, _, rfl⟩ := List.mem_map.mp hf
    rw [mkKt_lang t]
    decide)]
  simp

theorem bigFiles_filter_kt :
    bigFiles.filter (fun f => detectLanguage f.path == "Kotlin") = ktFiles
    := by
  unfold bigFiles
  rw [List.filter_append, List.filter_append]
  rw [List.filter_eq_nil_iff.mpr (fun f hf => by
    obtain ⟨t, _, rfl⟩ := List.mem_map.mp hf
    rw [mkGo_lang t]
    decide)]
  rw [List.filter_eq_nil_iff.mpr (fun f hf => by
    obtain ⟨t, _, rfl⟩ := List.mem_map.mp hf
    rw [mkRs_lang t]
    decide)]
  rw [List.filter_eq_self.mpr (fun f hf => by
    obtain ⟨t, _, rfl⟩ := List.mem_map.mp hf
    rw [mkKt_lang t]
    rfl)]
  simp

theorem bigFiles_groups :
    groupFilesByLanguage (codeFilesOf bigFiles) =
      [("Go", goFiles), ("Rust", rsFiles), ("Kotlin", ktFiles)] := by
  have hcf : codeFilesOf bigFiles = bigFiles := bigFiles_filter_code
  rw [hcf]
  show ((dedupFirst ((bigFiles.filter
      (fun f => !f.isDirectory && isCodeFile f.path)).map
        (fun f => detectLanguage f.path))).map (fun lang =>
      (lang, (bigFiles.filter
        (fun f => !f.isDirectory && isCodeFile f.path)).filter
          (fun f => detectLanguage f.path == lang)))) =
    [("Go", goFiles), ("Rust", rsFiles), ("Kotlin", ktFiles)]
  rw [bigFiles_filter_code, bigFiles_keys]
  rw [List.map_cons, List.map_cons, List.map_cons, List.map_nil]
  rw [bigFiles_filter_go, bigFiles_filter_rs, bigFiles_filter_kt]

/-- When the walked files all have fresh, pairwise-distinct paths and
fit the remaining budget, the sampling loop appends them all. -/
theorem sampleLoop_fresh (maxF : Nat) :
    ∀ (fs : List FileEntry) (st : SampleState),
      (fs.map (fun f => f.path)).Nodup →
      (∀ f ∈ fs, st.sampledPaths.contains f.path = false) →
      st.samples.length + fs.length ≤ maxF →
      sampleLoop maxF fs st =
        ⟨st.samples ++ fs,
          (fs.map (fun f => f.path)).reverse ++ st.sampledPaths⟩
  | [], st, _, _, _ => by simp [sampleLoop]
  | f :: fs, st, hnd, hdisj, hlen => by
    rw [sampleLoop]
    rw [if_pos (show st.samples.length < maxF by
      rw [List.length_cons] at hlen
      omega)]
    rw [if_neg (show ¬ st.sampledPaths.contains f.path = true by
      rw [hdisj f (by simp)]
      simp)]
    rw [List.map_cons, List.nodup_cons] at hnd
    have hrec := sampleLoop_fresh maxF fs
      ⟨st.samples ++ [f], f.path :: st.sampledPaths⟩ hnd.2
      (by
        intro g hg
        show ((f.path :: st.sampledPaths).contains g.path) = false
        rw [List.contains_cons]
        have h1 : (g.path == f.path) = false := by
          rw [beq_eq_false_iff_ne]
          intro hc
          exact hnd.1 (hc ▸ List.mem_map_of_mem (fun x => x.path) hg)
        rw [h1, hdisj g (List.mem_cons_of_mem _ hg)]
        rfl)
      (by
        show (st.samples ++ [f]).length + fs.length ≤ maxF
        rw [List.length_append, List.length_singleton]
        rw [List.length_cons] at hlen
        omega)
    rw [hrec]
    rw [SampleState.mk.injEq]
    constructor
    · rw [List.append_assoc]
      rfl
    · rw [List.map_cons, List.reverse_cons, List.append_assoc]
      rfl

theorem bigOpts_priorityPass : priorityPass bigFiles bigOpts = ⟨[], []⟩
    := by
  unfold priorityPass passFold
  rw [bigFiles_groups]
  rfl

theorem bigOpts_remainingLanguages :
    remainingLanguagesOf bigFiles bigOpts = ["Go", "Rust", "Kotlin"] := by
  unfold remainingLanguagesOf
  rw [bigFiles_groups]
  rfl

theorem goTake_paths_nodup :
    ((goFiles.take 100).map (fun f => f.path)).Nodup := by
  rw [List.map_take]
  exact List.Nodup.sublist (List.take_sublist _ _) goFiles_paths_nodup

theorem rsTake_paths_nodup :
    ((rsFiles.take 100).map (fun f => f.path)).Nodup := by
  rw [List.map_take]
  exact List.Nodup.sublist (List.take_sublist _ _) rsFiles_paths_nodup

theorem ktTake_paths_nodup :
    ((ktFiles.take 100).map (fun f => f.path)).Nodup := by
  rw [List.map_take]
  exact List.Nodup.sublist (List.take_sublist _ _) ktFiles_paths_nodup

/-- The samples selected in the 10,000-file scenario: the first 100
files of each of the three language groups, 300 in total. -/
theorem bigFiles_samples :
    (sampleCodeFiles bigFiles bigOpts).samples =
      goFiles.take 100 ++ rsFiles.take 100 ++ ktFiles.take 100 := by
  have hnotle : ¬ (bigFiles.filter
      (fun f => !f.isDirectory && isCodeFile f.path)).length ≤
        bigOpts.maxFiles.getD 1000 := by
    rw [bigFiles_filter_code, bigFiles_length]
    decide
  rw [sampleCodeFiles_samples_else bigFiles bigOpts hnotle,
    if_pos (show bigOpts.prioritizeDiversity.getD true = true from rfl)]
  unfold secondPass
  rw [bigOpts_remainingLanguages, bigOpts_priorityPass,
    if_pos (by decide)]
  unfold passFold
  rw [bigFiles_groups]
  rw [List.foldl_cons, List.foldl_cons, List.foldl_cons, List.foldl_nil]
  rw [show lookupGroup
    [("Go", goFiles), ("Rust", rsFiles), ("Kotlin", ktFiles)] "Go" =
      goFiles from rfl]
  rw [show lookupGroup
    [("Go", goFiles), ("Rust", rsFiles), ("Kotlin", ktFiles)] "Rust" =
      rsFiles from rfl]
  rw [show lookupGroup
    [("Go", goFiles), ("Rust", rsFiles), ("Kotlin", ktFiles)] "Kotlin" =
      ktFiles from rfl]
  rw [goFiles_length, rsFiles_length, ktFiles_length]
  rw [show (bigOpts.maxPerLanguage.getD 100) = 100 from rfl]
  rw [show (bigOpts.maxFiles.getD 1000) = 5000 from rfl]
  rw [show ((⟨[], []⟩ : SampleState)).samples.length = 0 from rfl]
  rw [show (["Go", "Rust", "Kotlin"] : List String).length = 3 from rfl]
  rw [show (min 3334 (min 100 (jsCeilDiv (5000 - 0) 3))) = 100 from by
    decide]
  rw [show (min 3333 (min 100 (jsCeilDiv (5000 - 0) 3))) = 100 from by
    decide]
  have h1 := sampleLoop_fresh 5000 (goFiles.take 100) ⟨[], []⟩
    goTake_paths_nodup (fun f _ => rfl)
    (by
      rw [List.length_take, goFiles_length]
      decide)
  rw [h1]
  have hfresh2 : ∀ f ∈ rsFiles.take 100,
      ((((goFiles.take 100).map (fun f => f.path)).reverse ++
        ([] : List String)).contains f.path) = false := by
    intro f hf
    rw [Bool.eq_false_iff]
    intro hc
    have hmem : f.path ∈ ((goFiles.take 100).map
        (fun f => f.path)).reverse ++ ([] : List String) := by
      simpa [List.elem_iff] using hc
    rw [List.append_nil, List.mem_reverse] at hmem
    obtain ⟨g, hg, hgp⟩ := List.mem_map.mp hmem
    obtain ⟨u, _, rfl⟩ := List.mem_map.mp (List.mem_of_mem_take hf)
    obtain ⟨t, _, rfl⟩ := List.mem_map.mp (List.mem_of_mem_take hg)
    exact mkGo_path_ne_mkRs t u hgp
  have h2 := sampleLoop_fresh 5000 (rsFiles.take 100)
    ⟨[] ++ goFiles.take 100,
      ((goFiles.take 100).map (fun f => f.path)).reverse ++ []⟩
    rsTake_paths_nodup hfresh2
    (by
      show ([] ++ goFiles.take 100).length + (rsFiles.take 100).length ≤
        5000
      rw [List.nil_append, List.length_take, List.length_take,
        goFiles_length, rsFiles_length]
      decide)
  rw [h2]
  have hfresh3 : ∀ f ∈ ktFiles.take 100,
      ((((rsFiles.take 100).map (fun f => f.path)).reverse ++
        (((goFiles.take 100).map (fun f => f.path)).reverse ++
          ([] : List String))).contains f.path) = false := by
    intro f hf
    rw [Bool.eq_false_iff]
    intro hc
    have hmem : f.path ∈ ((rsFiles.take 100).map
        (fun f => f.path)).reverse ++
        (((goFiles.take 100).map (fun f => f.path)).reverse ++
          ([] : List String)) := by
      simpa [List.elem_iff] using hc
    rw [List.append_nil, List.mem_append, List.mem_reverse,
      List.mem_reverse] at hmem
    obtain ⟨u, _, rfl⟩ := List.mem_map.mp (List.mem_of_mem_take hf)
    rcases hmem with hmem | hmem
    · obtain ⟨g, hg, hgp⟩ := List.mem_map.mp hmem
      obtain ⟨t, _, rfl⟩ := List.mem_map.mp (List.mem_of_mem_take hg)
      exact mkRs_path_ne_mkKt t u hgp
    · obtain ⟨g, hg, hgp⟩ := List.mem_map.mp hmem
      obtain ⟨t, _, rfl⟩ := List.mem_map.mp (List.mem_of_mem_take hg)
      exact mkGo_path_ne_mkKt t u hgp
  have h3 := sampleLoop_fresh 5000 (ktFiles.take 100)
    ⟨([] ++ goFiles.take 100) ++ rsFiles.take 100,
      ((rsFiles.take 100).map (fun f => f.path)).reverse ++
        (((goFiles.take 100).map (fun f => f.path)).reverse ++ [])⟩
    ktTake_paths_nodup hfresh3
    (by
      show (([] ++ goFiles.take 100) ++ rsFiles.take 100).length +
        (ktFiles.take 100).length ≤ 5000
      rw [List.nil_append, List.length_append, List.length_take,
        List.length_take, List.length_take, goFiles_length,
        rsFiles_length, ktFiles_length]
      decide)
  rw [h3]
  show (([] ++ goFiles.take 100) ++ rsFiles.take 100) ++ ktFiles.take 100
    = goFiles.take 100 ++ rsFiles.take 100 ++ ktFiles.take 100
  rw [List.nil_append]

theorem bigFiles_samples_length :
    (sampleCodeFiles bigFiles bigOpts).samples.length = 300 := by
  rw [bigFiles_samples, List.length_append, List.length_append,
    List.length_take, List.length_take, List.length_take, goFiles_length,
    rsFiles_length, ktFiles_length]
  decide

theorem bigFiles_no_python :
    bigFiles.filter (fun f => detectLanguage f.path == "Python") = [] := by
  apply List.filter_eq_nil_iff.mpr
  intro f hf
  unfold bigFiles at hf
  rcases List.mem_append.mp hf with hf | hf
  · rcases List.mem_append.mp hf with hf | hf
    · obtain ⟨t, _, rfl⟩ := List.mem_map.mp hf
      rw [mkGo_lang t]
      decide
    · obtain ⟨t, _, rfl⟩ := List.mem_map.mp hf
      rw [mkRs_lang t]
      decide
  · obtain ⟨t, _, rfl⟩ := List.mem_map.mp hf
    rw [mkKt_lang t]
    decide

/-- Counterexample to C4 as stated: a concrete input of 10,000
non-directory code files spread across exactly three languages, with
`maxFiles = 5000`, `priorityLanguages = ['Python']`,
`prioritizeDiversity = true` and `maxPerLanguage` left unspecified,
yields only 300 samples (100 per language, throttled by the default
`maxPerLanguage = 100`), not 5000. -/
theorem claim_C4_counterexample :
    bigFiles.length = 10000 ∧
    dedupFirst (bigFiles.map (fun f => detectLanguage f.path)) =
      ["Go", "Rust", "Kotlin"] ∧
    (∀ f ∈ bigFiles, f.isDirectory = false ∧ isCodeFile f.path = true) ∧
    bigOpts.maxFiles = some 5000 ∧
    bigOpts.priorityLanguages = some ["Python"] ∧
    bigOpts.prioritizeDiversity = some true ∧
    bigOpts.maxPerLanguage = none ∧
    ¬ (sampleCodeFiles bigFiles bigOpts).samples.length = 5000 := by
  refine ⟨bigFiles_length, bigFiles_keys, ?_, rfl, rfl, rfl, rfl, ?_⟩
  · intro f hf
    have hcode : (!f.isDirectory && isCodeFile f.path) = true := by
      unfold bigFiles at hf
      rcases List.mem_append.mp hf with hf | hf
      · rcases List.mem_append.mp hf with hf | hf
        · obtain ⟨t, _, rfl⟩ := List.mem_map.mp hf
          exact mkGo_code t
        · obtain ⟨t, _, rfl⟩ := List.mem_map.mp hf
          exact mkRs_code t
      · obtain ⟨t, _, rfl⟩ := List.mem_map.mp hf
        exact mkKt_code t
    rw [Bool.and_eq_true, Bool.not_eq_true'] at hcode
    exact hcode
  · rw [bigFiles_samples_length]
    decide

/-- Claim C4 as amended: in the 10,000-file, 3-language scenario with
`maxFiles = 5000`, `priorityLanguages = ['Python']`,
`prioritizeDiversity = true` and the default `maxPerLanguage`, the
number of Python files in the samples is capped at
`min(available, maxPerLanguage, ceil(5000/3))`, but the total sample
count is the sum of the per-language caps — here
`3 * min(available, 100, ceil(5000/3)) = 300` — not 5000. -/
theorem claim_C4_amended :
    ((sampleCodeFiles bigFiles bigOpts).samples.filter
      (fun f => detectLanguage f.path == "Python")).length =
      min ((bigFiles.filter
        (fun f => detectLanguage f.path == "Python")).length)
        (min 100 (jsCeilDiv 5000 3)) ∧
    (sampleCodeFiles bigFiles bigOpts).samples.length = 300 := by
  refine ⟨?_, bigFiles_samples_length⟩
  rw [bigFiles_no_python]
  rw [bigFiles_samples]
  rw [List.filter_eq_nil_iff.mpr (fun f hf => by
    rcases List.mem_append.mp hf with hf | hf
    · rcases List.mem_append.mp hf with hf | hf
      · obtain ⟨t, _, rfl⟩ := List.mem_map.mp
          (List.mem_of_mem_take hf)
        rw [mkGo_lang t]
        decide
      · obtain ⟨t, _, rfl⟩ := List.mem_map.mp
          (List.mem_of_mem_take hf)
        rw [mkRs_lang t]
        decide
    · obtain ⟨t, _, rfl⟩ := List.mem_map.mp
        (List.mem_of_mem_take hf)
      rw [mkKt_lang t]
      decide)]
  decide

end Sampler
